import Mathlib

/-!
Verification of the poshlounge point-of-sale core: a shallow embedding of the
order / inventory / payment state machine implemented in
`core/models.py`, `core/signals.py`, `core/views.py` and
`dashboard/views.py`, together with proofs about its invariants.

Monetary and quantity values (`DecimalField` in the source) are modelled as
exact rationals.  Entity tables are association lists keyed by natural
numbers (standing for the primary keys; the source uses UUIDs, whose only
relevant property is identity).  Fields that no proved property touches
(human-readable numbers, notes, actors, IP addresses) are omitted from the
records, as are the session / role guards that wrap every view: they gate
access but do not alter the state transitions reasoned about here.
-/

set_option allowUnsafeReducibility true

attribute [local semireducible] Rat.add Rat.mul Rat.sub Rat.neg Rat.div Rat.inv

namespace PoshLounge

/-- Decidable equality of computation results, so that the concrete witness
evaluations below can be checked by `decide`. -/
instance exceptDecEq {ε α : Type} [DecidableEq ε] [DecidableEq α] :
    DecidableEq (Except ε α) := fun
  | Except.error e, Except.error f =>
      if h : e = f then isTrue (by rw [h])
      else isFalse (fun hc => h (Except.error.inj hc))
  | Except.error _, Except.ok _ => isFalse (fun hc => Except.noConfusion hc)
  | Except.ok _, Except.error _ => isFalse (fun hc => Except.noConfusion hc)
  | Except.ok a, Except.ok b =>
      if h : a = b then isTrue (by rw [h])
      else isFalse (fun hc => h (Except.ok.inj hc))

/-- Order lifecycle states, from `Order.STATUS_CHOICES` in `core/models.py`. -/
inductive OrderStatus
  | pending
  | preparing
  | ready
  | served
  | completed
  | cancelled
deriving DecidableEq, Repr

/-- Stock movement types, from `StockMovement.MOVEMENT_TYPES`.
The constructor `ret` stands for the source's `'return'`. -/
inductive MovementType
  | purchase
  | sale
  | adjustment
  | wastage
  | ret
deriving DecidableEq, Repr

/-- Payment methods, from `Payment.PAYMENT_METHODS`.  Modelling the method as
an inductive subsumes the view's membership check of the raw string against
`valid_methods`. -/
inductive PaymentMethod
  | cash
  | mobile_money
  | orange_money
deriving DecidableEq, Repr

/-- Product (menu item), from `Product` in `core/models.py`. -/
structure Product where
  current_price : ℚ
  stock_quantity : ℚ
  min_stock_level : ℚ
  is_available : Bool
  is_active : Bool
  requires_kitchen : Bool
deriving DecidableEq, Repr

/-- Immutable inventory ledger entry, from `StockMovement` in `core/models.py`. -/
structure StockMovement where
  product : ℕ
  movement_type : MovementType
  quantity : ℚ
  previous_quantity : ℚ
  new_quantity : ℚ
deriving DecidableEq, Repr

/-- Restaurant table, from `Table` in `core/models.py`. -/
structure Table where
  is_occupied : Bool
  is_active : Bool
deriving DecidableEq, Repr

/-- Customer order, from `Order` in `core/models.py`.  Timestamps are modelled
as natural numbers read off the state's clock. -/
structure Order where
  table : Option ℕ
  status : OrderStatus
  subtotal : ℚ
  tax_amount : ℚ
  total_amount : ℚ
  completed_at : Option ℕ
deriving DecidableEq, Repr

/-- Order line item, from `OrderItem` in `core/models.py`. -/
structure OrderItem where
  order : ℕ
  product : ℕ
  quantity : ℚ
  unit_price : ℚ
  subtotal : ℚ
  special_instructions : String
  is_confirmed : Bool
  confirmed_at : Option ℕ
deriving DecidableEq, Repr

/-- Payment record, from `Payment` in `core/models.py`. -/
structure Payment where
  order : ℕ
  amount : ℚ
  payment_method : PaymentMethod
  transaction_reference : String
  receipt_printed : Bool
  receipt_printed_at : Option ℕ
deriving DecidableEq, Repr

/-- Errors surfaced by the embedded operations.  Each constructor corresponds
to an error response (message / redirect / raised `ValueError`) in the views
or model `save` methods. -/
inductive PosError
  | notFound
  | cannotModifyOrder
  | cannotDeleteConfirmed
  | invalidQuantity
  | invalidAmount
  | missingReference
  | alreadyPaid
  | immutabilityViolation
  | auditFailure
deriving DecidableEq, Repr

/-- The persistent state: one association list per database table, the
id counters, an audit-log counter, and a clock supplying `timezone.now()`. -/
structure PosState where
  products : List (ℕ × Product)
  tables : List (ℕ × Table)
  orders : List (ℕ × Order)
  items : List (ℕ × OrderItem)
  payments : List (ℕ × Payment)
  movements : List StockMovement
  auditLogs : ℕ
  nextOrderId : ℕ
  nextItemId : ℕ
  nextPaymentId : ℕ
  now : ℕ
deriving DecidableEq, Repr

/-- Row lookup by primary key in an association list (models `objects.get`). -/
def lookupEnt {α : Type} : List (ℕ × α) → ℕ → Option α
  | [], _ => none
  | (k, v) :: rest, key => if k = key then some v else lookupEnt rest key

/-- Row update by primary key (models `objects.filter(pk=...).update(...)`
and instance `save` on an existing row); rows with other keys are kept. -/
def setEnt {α : Type} (l : List (ℕ × α)) (key : ℕ) (v' : α) : List (ℕ × α) :=
  l.map (fun p => if p.1 = key then (key, v') else p)

/-- Row deletion by primary key (models instance `delete`). -/
def delEnt {α : Type} (l : List (ℕ × α)) (key : ℕ) : List (ℕ × α) :=
  l.filter (fun p => p.1 != key)

/-- Items belonging to one order: `order.items.all()`. -/
def itemsOf (items : List (ℕ × OrderItem)) (oid : ℕ) : List (ℕ × OrderItem) :=
  items.filter (fun p => p.2.order == oid)

/-- Sum of the stored `subtotal` column over a set of items, as in
`sum(item.subtotal for item in order_items)`. -/
def subSum (items : List (ℕ × OrderItem)) : ℚ :=
  (items.map (fun p => p.2.subtotal)).sum

/-- Sum of `quantity * unit_price` over a set of items (the spec's
`Σ(quantity × locked_unit_price)`). -/
def qpSum (items : List (ℕ × OrderItem)) : ℚ :=
  (items.map (fun p => p.2.quantity * p.2.unit_price)).sum

/-- Total already paid on an order: `sum(p.amount for p in order.payments.all())`. -/
def paidTotal (s : PosState) (oid : ℕ) : ℚ :=
  ((s.payments.filter (fun p => p.2.order == oid)).map (fun p => p.2.amount)).sum

/-- Modelled from the spec: `settings.TAX_RATE`, the single configured
tax-rate constant (the Django settings module is not among the provided
sources).  The spec states the constant "may be 0", its worked scenarios use
`tax_rate=0`, and both manual recomputations in `waiter_add_items` hard-code
`Decimal('0.0')` with the comment "No tax", so the constant is modelled as 0. -/
def TAX_RATE : ℚ := 0

/-- Auxiliary check of `notify_kitchen_on_order_item` and
`kitchen_confirm_item`: does the order still have an item with
`is_confirmed=False` whose product has `requires_kitchen=True`? -/
def hasUnconfirmedKitchenItem (s : PosState) (oid : ℕ) : Bool :=
  (itemsOf s.items oid).any (fun p =>
    !p.2.is_confirmed &&
      (match lookupEnt s.products p.2.product with
       | some prod => prod.requires_kitchen
       | none => false))

/-- Construction of a fresh `OrderItem` as performed by `OrderItem.save` on a
new instance (`OrderItem.objects.create` in `waiter_add_items`): a falsy
`unit_price` is price-locked from `Product.current_price`, and
`subtotal = quantity * unit_price` is computed. -/
def newOrderItem (oid pid : ℕ) (qty price currentPrice : ℚ) (instr : String) : OrderItem :=
  let unit := if price = 0 then currentPrice else price
  { order := oid
    product := pid
    quantity := qty
    unit_price := unit
    subtotal := qty * unit
    special_instructions := instr
    is_confirmed := false
    confirmed_at := none }

/-- Signal `deduct_inventory_on_order` (`core/signals.py`): on order-item
creation, deduct the quantity from the product's stock, append a `sale`
stock movement recording previous and new quantity, and write the
`audit_stock_changes` audit entry triggered by the movement's creation.
The low-stock alert only writes to the cache collaborator. -/
def deductInventoryOnOrder (s : PosState) (item : OrderItem) : PosState :=
  match lookupEnt s.products item.product with
  | none => s
  | some p =>
      let previous := p.stock_quantity
      let p' := { p with stock_quantity := previous - item.quantity }
      { s with
        products := setEnt s.products item.product p'
        movements := s.movements ++
          [{ product := item.product
             movement_type := MovementType.sale
             quantity := -item.quantity
             previous_quantity := previous
             new_quantity := previous - item.quantity }]
        auditLogs := s.auditLogs + 1 }

/-- Signal `calculate_order_totals_on_item_save` (`core/signals.py`): on every
order-item save, recompute `subtotal = Σ item.subtotal`,
`tax = subtotal * settings.TAX_RATE`, `total = subtotal + tax` and store them
on the order with a signal-free `update`. -/
def recomputeTotalsSignal (s : PosState) (oid : ℕ) : PosState :=
  match lookupEnt s.orders oid with
  | none => s
  | some o =>
      let sub := subSum (itemsOf s.items oid)
      let tax := sub * TAX_RATE
      let o' := { o with subtotal := sub, tax_amount := tax, total_amount := sub + tax }
      { s with orders := setEnt s.orders oid o' }

/-- Signal `notify_kitchen_on_order_item` (`core/signals.py`), creation case:
an item whose product does not require the kitchen is auto-confirmed via a
signal-free `update`, and if no unconfirmed kitchen item remains and the
order is `preparing` the order becomes `ready`.  Kitchen-required items only
write to the cache collaborator for the kitchen display. -/
def notifyKitchenOnCreate (s : PosState) (iid : ℕ) : PosState :=
  match lookupEnt s.items iid with
  | none => s
  | some it =>
      match lookupEnt s.products it.product with
      | none => s
      | some prod =>
          if prod.requires_kitchen then s
          else
            let it' := { it with is_confirmed := true, confirmed_at := some s.now }
            let s1 := { s with items := setEnt s.items iid it' }
            match lookupEnt s1.orders it.order with
            | none => s1
            | some o =>
                if !hasUnconfirmedKitchenItem s1 it.order ∧ o.status = OrderStatus.preparing then
                  let o' := { o with status := OrderStatus.ready }
                  { s1 with orders := setEnt s1.orders it.order o' }
                else s1

/-- Insertion of a freshly created order-item row
(`OrderItem.objects.create`). -/
def addItemRow (s : PosState) (iid : ℕ) (it : OrderItem) : PosState :=
  { s with items := s.items ++ [(iid, it)], nextItemId := iid + 1 }

/-- Status bump in `waiter_add_items` after creating an item: a `pending`
order becomes `preparing`. -/
def setPendingPreparing (s : PosState) (oid : ℕ) : PosState :=
  match lookupEnt s.orders oid with
  | none => s
  | some o =>
      if o.status = OrderStatus.pending then
        let o' := { o with status := OrderStatus.preparing }
        { s with orders := setEnt s.orders oid o' }
      else s

/-- Manual totals recomputation at the end of the add-item branch of
`waiter_add_items`: `subtotal = Σ item.subtotal`,
`tax = subtotal * Decimal('0.0')` (hard-coded "No tax"),
`total = subtotal + tax`. -/
def recomputeTotalsView (s : PosState) (oid : ℕ) : PosState :=
  match lookupEnt s.orders oid with
  | none => s
  | some o =>
      let sub := subSum (itemsOf s.items oid)
      let tax := sub * 0
      let o' := { o with subtotal := sub, tax_amount := tax, total_amount := sub + tax }
      { s with orders := setEnt s.orders oid o' }

/-- Manual totals recomputation in the delete-item branch of
`waiter_add_items`; the source zeroes the three columns explicitly when the
order has no item left and otherwise applies the same formula as the
add-item branch (again with the hard-coded zero tax rate). -/
def recomputeTotalsViewDelete (s : PosState) (oid : ℕ) : PosState :=
  match lookupEnt s.orders oid with
  | none => s
  | some o =>
      if (itemsOf s.items oid).isEmpty then
        let o' := { o with subtotal := (0 : ℚ), tax_amount := (0 : ℚ),
                           total_amount := (0 : ℚ) }
        { s with orders := setEnt s.orders oid o' }
      else
        let sub := subSum (itemsOf s.items oid)
        let tax := sub * 0
        let o' := { o with subtotal := sub, tax_amount := tax, total_amount := sub + tax }
        { s with orders := setEnt s.orders oid o' }

/-- Direct stock return in the delete-item branch:
`product.stock_quantity += item.quantity` followed by `product.save()`.
No `StockMovement` row is created on this path. -/
def returnStockDirect (s : PosState) (it : OrderItem) : PosState :=
  match lookupEnt s.products it.product with
  | none => s
  | some p =>
      let p' := { p with stock_quantity := p.stock_quantity + it.quantity }
      { s with products := setEnt s.products it.product p' }

/-- View `waiter_add_items` (`core/views.py`), add-item branch: rejects an
order that is not `pending`/`preparing`, an inactive or unavailable product,
and a non-positive quantity (a low-stock condition only warns).  On success it
creates the item (locking the unit price from `product.current_price`), which
fires the three `post_save` receivers in registration order, then moves a
`pending` order to `preparing` and finally recomputes the totals manually
with the hard-coded `Decimal('0.0')` tax rate. -/
def waiterAddItem (s : PosState) (oid pid : ℕ) (qty : ℚ) (instr : String) :
    Except PosError PosState :=
  match lookupEnt s.orders oid with
  | none => Except.error PosError.notFound
  | some o =>
      if o.status ≠ OrderStatus.pending ∧ o.status ≠ OrderStatus.preparing then
        Except.error PosError.cannotModifyOrder
      else
        match lookupEnt s.products pid with
        | none => Except.error PosError.notFound
        | some prod =>
            if ¬(prod.is_active ∧ prod.is_available) then Except.error PosError.notFound
            else if qty ≤ 0 then Except.error PosError.invalidQuantity
            else
              let iid := s.nextItemId
              let it := newOrderItem oid pid qty prod.current_price prod.current_price instr
              Except.ok (recomputeTotalsView
                (setPendingPreparing
                  (notifyKitchenOnCreate
                    (recomputeTotalsSignal
                      (deductInventoryOnOrder (addItemRow s iid it) it) oid) iid) oid) oid)

/-- View `waiter_add_items` (`core/views.py`), delete-item branch: rejects an
order that is not `pending`/`preparing`, an unknown item and a confirmed
item.  On success it adds the quantity back onto `product.stock_quantity`
directly (no `StockMovement` is created), deletes the item (deletion fires no
registered signal) and recomputes the totals manually, zeroing them when no
item remains. -/
def waiterRemoveItem (s : PosState) (oid iid : ℕ) : Except PosError PosState :=
  match lookupEnt s.orders oid with
  | none => Except.error PosError.notFound
  | some _o =>
      if _o.status ≠ OrderStatus.pending ∧ _o.status ≠ OrderStatus.preparing then
        Except.error PosError.cannotModifyOrder
      else
        match lookupEnt s.items iid with
        | none => Except.error PosError.notFound
        | some it =>
            if it.order ≠ oid then Except.error PosError.notFound
            else if it.is_confirmed then Except.error PosError.cannotDeleteConfirmed
            else
              let s1 := returnStockDirect s it
              let s2 := { s1 with items := delEnt s1.items iid }
              Except.ok (recomputeTotalsViewDelete s2 oid)

/-- Price locking in `OrderItem.save`: a falsy (zero) `unit_price` is
replaced by `Product.current_price`. -/
def lockedUnitPrice (inst : OrderItem) (currentPrice : ℚ) : ℚ :=
  if inst.unit_price = 0 then currentPrice else inst.unit_price

/-- The row `OrderItem.save` actually writes: locked unit price and
recomputed `subtotal = quantity * unit_price`. -/
def savedOrderItem (inst : OrderItem) (currentPrice : ℚ) : OrderItem :=
  { inst with unit_price := lockedUnitPrice inst currentPrice,
              subtotal := inst.quantity * lockedUnitPrice inst currentPrice }

/-- Data-layer `OrderItem.save` on an already-stored instance
(`core/models.py`).  A falsy `unit_price` is re-locked from the product's
current price and `subtotal = quantity * unit_price` is recomputed.  The
immutability guard `if self.pk and self.is_confirmed` inspects the INCOMING
instance's `is_confirmed` flag and rejects a change of quantity, product or
unit price against the stored row; otherwise the row is written, which fires
`calculate_order_totals_on_item_save` (the creation-only receivers skip a
re-save).  Creation of items is embedded in `waiterAddItem`. -/
def orderItemSave (s : PosState) (iid : ℕ) (inst : OrderItem) : Except PosError PosState :=
  match lookupEnt s.products inst.product with
  | none => Except.error PosError.notFound
  | some prod =>
      match lookupEnt s.items iid with
      | none => Except.error PosError.notFound
      | some old =>
          if inst.is_confirmed ∧
              (old.quantity ≠ inst.quantity ∨ old.product ≠ inst.product ∨
                old.unit_price ≠ lockedUnitPrice inst prod.current_price) then
            Except.error PosError.immutabilityViolation
          else
            Except.ok (recomputeTotalsSignal
              { s with items := setEnt s.items iid (savedOrderItem inst prod.current_price) }
              inst.order)

/-- View `kitchen_confirm_item` (`core/views.py`): fetches the item, saves it
with `is_confirmed=True` and a confirmation timestamp, and if no unconfirmed
kitchen-required item remains on a `preparing` order, marks the order
`ready`. -/
def kitchenConfirmItem (s : PosState) (iid : ℕ) : Except PosError PosState :=
  match lookupEnt s.items iid with
  | none => Except.error PosError.notFound
  | some it =>
      match orderItemSave s iid { it with is_confirmed := true, confirmed_at := some s.now } with
      | Except.error e => Except.error e
      | Except.ok s1 =>
          match lookupEnt s1.orders it.order with
          | none => Except.ok s1
          | some o =>
              if !hasUnconfirmedKitchenItem s1 it.order ∧ o.status = OrderStatus.preparing then
                let o' := { o with status := OrderStatus.ready }
                Except.ok { s1 with orders := setEnt s1.orders it.order o' }
              else Except.ok s1

/-- View `waiter_create_order` (`core/views.py`): an active table with an
existing `pending`/`preparing`/`ready` order redirects to that order without
creating anything; otherwise a fresh `pending` order with zero totals is
created and the table is marked occupied.  Returns the id of the order the
waiter is redirected to. -/
def waiterCreateOrder (s : PosState) (tid : ℕ) : Except PosError (PosState × ℕ) :=
  match lookupEnt s.tables tid with
  | none => Except.error PosError.notFound
  | some t =>
      if ¬t.is_active then Except.error PosError.notFound
      else
        match (s.orders.find? (fun q => q.2.table == some tid &&
            (q.2.status == OrderStatus.pending || q.2.status == OrderStatus.preparing ||
              q.2.status == OrderStatus.ready))) with
        | some existing => Except.ok (s, existing.1)
        | none =>
            let oid := s.nextOrderId
            let o : Order :=
              { table := some tid
                status := OrderStatus.pending
                subtotal := 0
                tax_amount := 0
                total_amount := 0
                completed_at := none }
            let t' := { t with is_occupied := true }
            Except.ok
              ({ s with orders := s.orders ++ [(oid, o)]
                        nextOrderId := oid + 1
                        tables := setEnt s.tables tid t' }, oid)

/-- Signal `mark_order_completed_on_payment` (`core/signals.py`): on payment
creation, if the order's accumulated payments reach `total_amount`, the order
is marked `completed` with a completion timestamp and its table (when
present) is freed. -/
def markOrderCompletedOnPayment (s : PosState) (pay : Payment) : PosState :=
  match lookupEnt s.orders pay.order with
  | none => s
  | some o =>
      if o.total_amount ≤ paidTotal s pay.order then
        let o' := { o with status := OrderStatus.completed, completed_at := some s.now }
        let s1 := { s with orders := setEnt s.orders pay.order o' }
        match o.table with
        | none => s1
        | some tid =>
            match lookupEnt s1.tables tid with
            | none => s1
            | some t =>
                let t' := { t with is_occupied := false }
                { s1 with tables := setEnt s1.tables tid t' }
      else s

/-- The `Payment` row as assembled by `Payment.objects.create(...)` in
`cashier_process_payment` (the payment-number generation, processed-by and
processed-at bookkeeping carry no verified property and are omitted). -/
def mkPayment (oid : ℕ) (amt : ℚ) (method : PaymentMethod) (ref : String) : Payment :=
  { order := oid
    amount := amt
    payment_method := method
    transaction_reference := ref
    receipt_printed := false
    receipt_printed_at := none }

/-- Insertion of a payment row, allocating the next id. -/
def appendPayment (s : PosState) (k : ℕ) (pay : Payment) : PosState :=
  { s with payments := s.payments ++ [(k, pay)], nextPaymentId := s.nextPaymentId + 1 }

/-- Creation of the payment row followed by the completion-detection signal
(the cash-drawer receiver only writes to the cache collaborator). -/
def recordPayment (s : PosState) (oid : ℕ) (amt : ℚ) (method : PaymentMethod)
    (ref : String) : PosState :=
  let pay := mkPayment oid amt method ref
  markOrderCompletedOnPayment (appendPayment s s.nextPaymentId pay) pay

/-- View `cashier_process_payment` (`core/views.py`): rejects a `completed`
order, a non-positive amount and a missing transaction reference for mobile
methods; the cashier role and active-shift guards are session-layer
preconditions outside the modelled state.  The requested amount is capped to
`remaining = total_amount - Σ(existing payments)` and the payment row is
created (model validators such as `MinValueValidator(0.01)` do not run on
`objects.create`), firing the `post_save` receivers in registration order:
completion detection, the cash-drawer cache signal (collaborator only), and
`audit_payment_creation`.  The audit write is NOT wrapped in try/except, so
its failure — modelled by `auditOk = false` — propagates out of the signal
and `@transaction.atomic` rolls the whole operation back (an error result
carries no state). -/
def cashierProcessPayment (s : PosState) (oid : ℕ) (amount : ℚ)
    (method : PaymentMethod) (ref : String) (auditOk : Bool) :
    Except PosError PosState :=
  match lookupEnt s.orders oid with
  | none => Except.error PosError.notFound
  | some o =>
      if o.status = OrderStatus.completed then Except.error PosError.alreadyPaid
      else if amount ≤ 0 then Except.error PosError.invalidAmount
      else if (method = PaymentMethod.mobile_money ∨ method = PaymentMethod.orange_money) ∧
          ref = "" then
        Except.error PosError.missingReference
      else
        let remaining := o.total_amount - paidTotal s oid
        let amt := if remaining < amount then remaining else amount
        let s2 := recordPayment s oid amt method ref
        if auditOk then Except.ok { s2 with auditLogs := s2.auditLogs + 1 }
        else Except.error PosError.auditFailure

/-- View `inventory_adjust` (`dashboard/views.py`): for an admin-submitted
`InventoryAdjustmentForm` (movement type limited to purchase / adjustment /
wastage, quantity validated to be at least 0.01 and is an absolute target for
`adjustment`), adjusts the product's stock and appends a `StockMovement`
whose recorded `quantity` is the form value for a purchase and its negation
otherwise.  The movement's creation fires `audit_stock_changes`. -/
def inventoryAdjust (s : PosState) (pid : ℕ) (qty : ℚ) (adjType : MovementType) :
    Except PosError PosState :=
  match lookupEnt s.products pid with
  | none => Except.error PosError.notFound
  | some p =>
      if ¬(adjType = MovementType.purchase ∨ adjType = MovementType.adjustment ∨
          adjType = MovementType.wastage) then
        Except.error PosError.invalidQuantity
      else if qty < 1 / 100 then Except.error PosError.invalidQuantity
      else
        let previous := p.stock_quantity
        let newQty :=
          if adjType = MovementType.purchase then previous + qty
          else if adjType = MovementType.wastage then previous - qty
          else qty
        let p' := { p with stock_quantity := newQty }
        let mv : StockMovement :=
          { product := pid
            movement_type := adjType
            quantity := if adjType = MovementType.purchase then qty else -qty
            previous_quantity := previous
            new_quantity := newQty }
        Except.ok { s with products := setEnt s.products pid p'
                           movements := s.movements ++ [mv]
                           auditLogs := s.auditLogs + 1 }

/-- Data-layer `Payment.save` on an already-persisted instance
(`core/models.py`): `self.pk` is always set (UUID default) and
`self._state.adding` is `False` for a row loaded from the database, so the
guard raises `ValueError("Payment records cannot be modified after creation")`
before anything is written, whatever fields were changed.  Creation of
payments is embedded in `cashierProcessPayment`. -/
def paymentSaveUpdate (s : PosState) (payId : ℕ) (_inst : Payment) :
    Except PosError PosState :=
  match lookupEnt s.payments payId with
  | none => Except.error PosError.notFound
  | some _ => Except.error PosError.immutabilityViolation

/-- Data-layer `Payment.delete` (`core/models.py`): unconditionally raises
`ValueError("Payment records cannot be deleted")`. -/
def paymentDelete (s : PosState) (payId : ℕ) : Except PosError PosState :=
  match lookupEnt s.payments payId with
  | none => Except.error PosError.notFound
  | some _ => Except.error PosError.immutabilityViolation

/-- Structured receipt handed to the printer collaborator, from the
`receipt_data` dict built in `api_print_receipt` (`core/views.py`); the
purely presentational string fields are omitted, line items keep
`(quantity, unit_price, subtotal)`. -/
structure ReceiptData where
  receipt_number : ℕ
  order_number : ℕ
  subtotal : ℚ
  tax : ℚ
  total : ℚ
  amount_paid : ℚ
  items : List (ℚ × ℚ × ℚ)
deriving DecidableEq, Repr

/-- View `api_print_receipt` (`core/views.py`): builds the structured receipt,
sends it to the printer collaborator (whose success/failure boolean is the
`printerSuccess` input), and on success attempts
`payment.save(update_fields=['receipt_printed', 'receipt_printed_at'])`.
That save runs `Payment.save` on a loaded instance, which raises; the
`ValueError` is caught by the view's generic handler, which returns the
error response "Failed to generate receipt" instead of the receipt data.  On
printer failure no save is attempted and the receipt data is returned with
`printer_success = False`. -/
def apiPrintReceipt (s : PosState) (payId : ℕ) (printerSuccess : Bool) :
    Except PosError (PosState × ReceiptData × Bool) :=
  match lookupEnt s.payments payId with
  | none => Except.error PosError.notFound
  | some pay =>
      match lookupEnt s.orders pay.order with
      | none => Except.error PosError.notFound
      | some o =>
          let receipt : ReceiptData :=
            { receipt_number := payId
              order_number := pay.order
              subtotal := o.subtotal
              tax := o.tax_amount
              total := o.total_amount
              amount_paid := pay.amount
              items := (itemsOf s.items pay.order).map
                (fun q => (q.2.quantity, q.2.unit_price, q.2.subtotal)) }
          if printerSuccess then
            match paymentSaveUpdate s payId
                { pay with receipt_printed := true, receipt_printed_at := some s.now } with
            | Except.ok s' => Except.ok (s', receipt, true)
            | Except.error _ => Except.error PosError.immutabilityViolation
          else Except.ok (s, receipt, false)

/-- Audit fragment of `login_view` (`core/views.py`), after successful
authentication: the `AuditLog.objects.create` call is wrapped in try/except
with the comment "Don't block login if audit logging fails", so the login
flow reaches its success redirect whether or not the audit write (success
modelled by `auditOk`) goes through.  Returns the state and whether login
succeeded. -/
def loginAuditStep (s : PosState) (auditOk : Bool) : PosState × Bool :=
  if auditOk then ({ s with auditLogs := s.auditLogs + 1 }, true)
  else (s, true)

/-- The add-item / remove-item operations of the order state machine, the
only operations the totals claim quantifies over. -/
inductive WaiterOp
  | add (oid pid : ℕ) (qty : ℚ) (instr : String)
  | remove (oid iid : ℕ)

/-- Application of one waiter operation; a rejected operation leaves the
state unchanged (every error path in `waiter_add_items` redirects without
altering the database). -/
def applyWaiterOp (s : PosState) : WaiterOp → PosState
  | WaiterOp.add oid pid qty instr =>
      match waiterAddItem s oid pid qty instr with
      | Except.ok s' => s'
      | Except.error _ => s
  | WaiterOp.remove oid iid =>
      match waiterRemoveItem s oid iid with
      | Except.ok s' => s'
      | Except.error _ => s

/-- Application of a sequence of waiter operations. -/
def applyWaiterOps (s : PosState) (ops : List WaiterOp) : PosState :=
  ops.foldl applyWaiterOp s

/-! ### Association-list lemmas -/

theorem lookupEnt_eq_some_mem {α : Type} {l : List (ℕ × α)} {k : ℕ} {v : α}
    (h : lookupEnt l k = some v) : (k, v) ∈ l := by
  induction l with
  | nil => simp [lookupEnt] at h
  | cons hd tl ih =>
      obtain ⟨k', v'⟩ := hd
      by_cases hk : k' = k
      · subst hk
        simp [lookupEnt] at h
        subst h
        exact List.mem_cons_self _ _
      · simp [lookupEnt, hk] at h
        exact List.mem_cons_of_mem _ (ih h)

theorem lookupEnt_cons {α : Type} (k₀ : ℕ) (v₀ : α) (tl : List (ℕ × α)) (key : ℕ) :
    lookupEnt ((k₀, v₀) :: tl) key = if k₀ = key then some v₀ else lookupEnt tl key := rfl

theorem setEnt_cons {α : Type} (k₀ : ℕ) (v₀ : α) (tl : List (ℕ × α)) (key : ℕ) (v' : α) :
    setEnt ((k₀, v₀) :: tl) key v' =
      (if k₀ = key then (key, v') else (k₀, v₀)) :: setEnt tl key v' := by
  unfold setEnt
  rw [List.map_cons]

theorem lookupEnt_setEnt_self {α : Type} (l : List (ℕ × α)) (k : ℕ) (v v₀ : α)
    (h : lookupEnt l k = some v₀) : lookupEnt (setEnt l k v) k = some v := by
  induction l with
  | nil => simp [lookupEnt] at h
  | cons hd tl ih =>
      obtain ⟨k', v'⟩ := hd
      rw [setEnt_cons]
      by_cases hk : k' = k
      · rw [if_pos hk, lookupEnt_cons, if_pos rfl]
      · rw [lookupEnt_cons, if_neg hk] at h
        rw [if_neg hk, lookupEnt_cons, if_neg hk]
        exact ih h

theorem lookupEnt_setEnt_ne {α : Type} (l : List (ℕ × α)) (k k' : ℕ) (v : α)
    (h : k' ≠ k) : lookupEnt (setEnt l k v) k' = lookupEnt l k' := by
  induction l with
  | nil => simp [setEnt, lookupEnt]
  | cons hd tl ih =>
      obtain ⟨k₀, v₀⟩ := hd
      rw [setEnt_cons]
      by_cases hk : k₀ = k
      · have hne : ¬(k = k') := fun hc => h hc.symm
        have hne₀ : ¬(k₀ = k') := fun hc => hne (hk ▸ hc)
        rw [if_pos hk, lookupEnt_cons, if_neg hne, lookupEnt_cons, if_neg hne₀]
        exact ih
      · rw [if_neg hk, lookupEnt_cons, lookupEnt_cons]
        by_cases hk' : k₀ = k'
        · rw [if_pos hk', if_pos hk']
        · rw [if_neg hk', if_neg hk']
          exact ih

theorem mem_setEnt {α : Type} {l : List (ℕ × α)} {k : ℕ} {v : α} {x : ℕ × α}
    (h : x ∈ setEnt l k v) : x = (k, v) ∨ (x ∈ l ∧ x.1 ≠ k) := by
  rcases List.mem_map.mp h with ⟨p, hp, heq⟩
  by_cases hpk : p.1 = k
  · rw [if_pos hpk] at heq
    exact Or.inl heq.symm
  · rw [if_neg hpk] at heq
    subst heq
    exact Or.inr ⟨hp, hpk⟩

theorem mem_setEnt_of_mem {α : Type} {l : List (ℕ × α)} {k : ℕ} {v : α} {x : ℕ × α}
    (hx : x ∈ l) (hk : x.1 ≠ k) : x ∈ setEnt l k v := by
  refine List.mem_map.mpr ⟨x, hx, ?_⟩
  rw [if_neg hk]

theorem keys_setEnt {α : Type} (l : List (ℕ × α)) (k : ℕ) (v : α) :
    (setEnt l k v).map Prod.fst = l.map Prod.fst := by
  unfold setEnt
  rw [List.map_map]
  apply List.map_congr_left
  intro p _
  by_cases hpk : p.1 = k
  · simp [Function.comp, hpk]
  · simp [Function.comp, hpk]

theorem setEnt_append_fresh {α : Type} (l : List (ℕ × α)) (k : ℕ) (v v' : α)
    (h : ∀ p ∈ l, p.1 ≠ k) : setEnt (l ++ [(k, v)]) k v' = l ++ [(k, v')] := by
  unfold setEnt
  rw [List.map_append]
  congr 1
  · conv_rhs => rw [show l = l.map id from (List.map_id l).symm]
    apply List.map_congr_left
    intro p hp
    rw [if_neg (h p hp)]
    rfl
  · simp

theorem lookupEnt_append_fresh {α : Type} (l : List (ℕ × α)) (k : ℕ) (v : α)
    (h : ∀ p ∈ l, p.1 ≠ k) : lookupEnt (l ++ [(k, v)]) k = some v := by
  induction l with
  | nil => simp [lookupEnt]
  | cons hd tl ih =>
      obtain ⟨k₀, v₀⟩ := hd
      have hk₀ : k₀ ≠ k := h (k₀, v₀) (List.mem_cons_self _ _)
      simp only [List.cons_append, lookupEnt, if_neg hk₀]
      exact ih (fun p hp => h p (List.mem_cons_of_mem _ hp))

theorem lookupEnt_append_left {α : Type} (l l' : List (ℕ × α)) (k : ℕ) (v : α)
    (h : lookupEnt l k = some v) : lookupEnt (l ++ l') k = some v := by
  induction l with
  | nil => simp [lookupEnt] at h
  | cons hd tl ih =>
      obtain ⟨k₀, v₀⟩ := hd
      by_cases hk : k₀ = k
      · subst hk
        simp only [lookupEnt, if_pos rfl] at h ⊢
        exact h
      · simp only [lookupEnt, if_neg hk] at h ⊢
        exact ih h

theorem mem_delEnt {α : Type} {l : List (ℕ × α)} {k : ℕ} {x : ℕ × α}
    (h : x ∈ delEnt l k) : x ∈ l ∧ x.1 ≠ k := by
  have h' := List.mem_filter.mp h
  exact ⟨h'.1, by simpa using h'.2⟩

/-- Filtering away a key absent from the whole list changes nothing. -/
theorem delEnt_of_fresh {α : Type} {l : List (ℕ × α)} {k : ℕ}
    (h : ∀ p ∈ l, p.1 ≠ k) : delEnt l k = l := by
  unfold delEnt
  apply List.filter_eq_self.mpr
  intro p hp
  simpa using h p hp

/-- Under distinct keys, deleting the looked-up row decomposes the list. -/
theorem delEnt_of_nodup {α : Type} {l : List (ℕ × α)} {k : ℕ} {v : α}
    (hnd : (l.map Prod.fst).Nodup) (h : lookupEnt l k = some v) :
    ∃ l₁ l₂, l = l₁ ++ (k, v) :: l₂ ∧ delEnt l k = l₁ ++ l₂ ∧
      (∀ p ∈ l₁, p.1 ≠ k) ∧ (∀ p ∈ l₂, p.1 ≠ k) := by
  induction l with
  | nil => simp [lookupEnt] at h
  | cons hd tl ih =>
      obtain ⟨k₀, v₀⟩ := hd
      simp only [List.map_cons, List.nodup_cons] at hnd
      by_cases hk : k₀ = k
      · subst hk
        rw [lookupEnt_cons, if_pos rfl] at h
        obtain rfl := Option.some.inj h
        have hfresh : ∀ p ∈ tl, p.1 ≠ k₀ := by
          intro p hp hc
          exact hnd.1 (hc ▸ List.mem_map_of_mem Prod.fst hp)
        refine ⟨[], tl, by simp, ?_, by simp, hfresh⟩
        unfold delEnt
        rw [List.filter_cons_of_neg (by simp)]
        exact delEnt_of_fresh hfresh
      · simp only [lookupEnt, if_neg hk] at h
        obtain ⟨l₁, l₂, heq, hdel, h₁, h₂⟩ := ih hnd.2 h
        refine ⟨(k₀, v₀) :: l₁, l₂, by simp [heq], ?_, ?_, h₂⟩
        · unfold delEnt at hdel ⊢
          rw [List.filter_cons_of_pos (by simpa using hk), hdel, List.cons_append]
        · intro p hp
          rcases List.mem_cons.mp hp with h' | h'
          · subst h'
            exact hk
          · exact h₁ p h'

/-! ### Sums over item lists -/

theorem itemsOf_append (l l' : List (ℕ × OrderItem)) (oid : ℕ) :
    itemsOf (l ++ l') oid = itemsOf l oid ++ itemsOf l' oid := by
  simp [itemsOf, List.filter_append]

theorem subSum_append (l l' : List (ℕ × OrderItem)) :
    subSum (l ++ l') = subSum l + subSum l' := by
  simp [subSum]

theorem itemsOf_single_ne (iid : ℕ) (it : OrderItem) (oid : ℕ) (h : it.order ≠ oid) :
    itemsOf [(iid, it)] oid = [] := by
  unfold itemsOf
  rw [List.filter_cons_of_neg (by simpa using h)]
  rfl

theorem itemsOf_single_eq (iid : ℕ) (it : OrderItem) (oid : ℕ) (h : it.order = oid) :
    itemsOf [(iid, it)] oid = [(iid, it)] := by
  unfold itemsOf
  rw [List.filter_cons_of_pos (by simpa using h)]
  rfl

theorem lookupEnt_eq_none {α : Type} {l : List (ℕ × α)} {k : ℕ}
    (h : lookupEnt l k = none) : ∀ p ∈ l, p.1 ≠ k := by
  induction l with
  | nil => intro p hp; simp at hp
  | cons hd tl ih =>
      obtain ⟨k₀, v₀⟩ := hd
      rw [lookupEnt_cons] at h
      by_cases hk : k₀ = k
      · rw [if_pos hk] at h; exact absurd h (by simp)
      · rw [if_neg hk] at h
        intro p hp
        rcases List.mem_cons.mp hp with h' | h'
        · subst h'; exact hk
        · exact ih h p h'

/-- Replacing a row whose old and new values both lie outside an order's item
set leaves that item set unchanged. -/
theorem itemsOf_setEnt_off {l : List (ℕ × OrderItem)} {iid : ℕ} {it' : OrderItem}
    {oid : ℕ} (hnew : it'.order ≠ oid)
    (hold : ∀ p ∈ l, p.1 = iid → p.2.order ≠ oid) :
    itemsOf (setEnt l iid it') oid = itemsOf l oid := by
  induction l with
  | nil => rfl
  | cons hd tl ih =>
      obtain ⟨k₀, v₀⟩ := hd
      rw [setEnt_cons]
      by_cases hk : k₀ = iid
      · rw [if_pos hk]
        unfold itemsOf
        rw [List.filter_cons_of_neg (by simpa using hnew),
            List.filter_cons_of_neg
              (by simpa using hold (k₀, v₀) (List.mem_cons_self _ _) hk)]
        exact ih (fun p hp => hold p (List.mem_cons_of_mem _ hp))
      · rw [if_neg hk]
        unfold itemsOf
        rw [List.filter_cons, List.filter_cons]
        have := ih (fun p hp => hold p (List.mem_cons_of_mem _ hp))
        unfold itemsOf at this
        rw [this]

/-! ### State invariants

`StateInv` holds of every state reachable through the embedded operations:
each stored item's `subtotal` column equals `quantity * unit_price`
(established by `OrderItem.save`), each order's stored totals satisfy the
recomputation rule over its current item set, item primary keys are distinct,
and keys stay below the id counter. -/

def ItemsLocked (s : PosState) : Prop :=
  ∀ p ∈ s.items, p.2.subtotal = p.2.quantity * p.2.unit_price

def OrderEntryCorrect (items : List (ℕ × OrderItem)) (q : ℕ × Order) : Prop :=
  q.2.subtotal = subSum (itemsOf items q.1) ∧
  q.2.tax_amount = q.2.subtotal * TAX_RATE ∧
  q.2.total_amount = q.2.subtotal + q.2.tax_amount

def TotalsCorrect (s : PosState) : Prop :=
  ∀ q ∈ s.orders, OrderEntryCorrect s.items q

/-- Totals correctness for every order other than `oid` (the intermediate
states inside an operation touching `oid` satisfy only this). -/
def TotalsCorrectOff (s : PosState) (oid : ℕ) : Prop :=
  ∀ q ∈ s.orders, q.1 ≠ oid → OrderEntryCorrect s.items q

def StateInv (s : PosState) : Prop :=
  ItemsLocked s ∧ TotalsCorrect s ∧ (s.items.map Prod.fst).Nodup ∧
    ∀ p ∈ s.items, p.1 < s.nextItemId

instance (s : PosState) : Decidable (ItemsLocked s) := by
  unfold ItemsLocked
  infer_instance

instance (items : List (ℕ × OrderItem)) (q : ℕ × Order) :
    Decidable (OrderEntryCorrect items q) := by
  unfold OrderEntryCorrect
  infer_instance

instance (s : PosState) : Decidable (TotalsCorrect s) := by
  unfold TotalsCorrect
  infer_instance

instance (s : PosState) : Decidable (StateInv s) := by
  unfold StateInv
  infer_instance

/-! ### Shape lemmas: which part of the state each stage touches -/

theorem deductInventoryOnOrder_shape (s : PosState) (it : OrderItem) :
    ∃ prods movs al, deductInventoryOnOrder s it =
      { s with products := prods, movements := movs, auditLogs := al } := by
  unfold deductInventoryOnOrder
  split
  · exact ⟨s.products, s.movements, s.auditLogs, rfl⟩
  · exact ⟨_, _, _, rfl⟩

theorem recomputeTotalsSignal_shape (s : PosState) (oid : ℕ) :
    ∃ ords, recomputeTotalsSignal s oid = { s with orders := ords } := by
  unfold recomputeTotalsSignal
  split
  · exact ⟨s.orders, rfl⟩
  · exact ⟨_, rfl⟩

theorem recomputeTotalsSignal_orders_off {s : PosState} {oid : ℕ} {q : ℕ × Order}
    (hq : q ∈ (recomputeTotalsSignal s oid).orders) (hne : q.1 ≠ oid) :
    q ∈ s.orders := by
  unfold recomputeTotalsSignal at hq
  split at hq
  · exact hq
  · rcases mem_setEnt hq with h' | h'
    · rw [h'] at hne; exact absurd rfl hne
    · exact h'.1

theorem setPendingPreparing_shape (s : PosState) (oid : ℕ) :
    ∃ ords, setPendingPreparing s oid = { s with orders := ords } := by
  unfold setPendingPreparing
  split
  · exact ⟨s.orders, rfl⟩
  · split
    · exact ⟨_, rfl⟩
    · exact ⟨s.orders, rfl⟩

theorem setPendingPreparing_orders_off {s : PosState} {oid : ℕ} {q : ℕ × Order}
    (hq : q ∈ (setPendingPreparing s oid).orders) (hne : q.1 ≠ oid) :
    q ∈ s.orders := by
  unfold setPendingPreparing at hq
  split at hq
  · exact hq
  · split at hq
    · rcases mem_setEnt hq with h' | h'
      · rw [h'] at hne; exact absurd rfl hne
      · exact h'.1
    · exact hq

theorem recomputeTotalsView_orders_off {s : PosState} {oid : ℕ} {q : ℕ × Order}
    (hq : q ∈ (recomputeTotalsView s oid).orders) (hne : q.1 ≠ oid) :
    q ∈ s.orders := by
  unfold recomputeTotalsView at hq
  split at hq
  · exact hq
  · rcases mem_setEnt hq with h' | h'
    · rw [h'] at hne; exact absurd rfl hne
    · exact h'.1

theorem notifyKitchenOnCreate_shape (s : PosState) (iid : ℕ) :
    ∃ its ords, notifyKitchenOnCreate s iid = { s with items := its, orders := ords } := by
  unfold notifyKitchenOnCreate
  split
  · exact ⟨s.items, s.orders, rfl⟩
  · split
    · exact ⟨s.items, s.orders, rfl⟩
    · split
      · exact ⟨s.items, s.orders, rfl⟩
      · dsimp only
        split
        · exact ⟨_, s.orders, rfl⟩
        · split
          · exact ⟨_, _, rfl⟩
          · exact ⟨_, s.orders, rfl⟩

theorem notifyKitchenOnCreate_orders_off {s : PosState} {iid : ℕ} {it : OrderItem}
    {q : ℕ × Order} (hit : lookupEnt s.items iid = some it)
    (hq : q ∈ (notifyKitchenOnCreate s iid).orders) (hne : q.1 ≠ it.order) :
    q ∈ s.orders := by
  unfold notifyKitchenOnCreate at hq
  split at hq
  · exact hq
  next it' heq =>
    rw [hit] at heq
    obtain rfl := Option.some.inj heq
    split at hq
    · exact hq
    · split at hq
      · exact hq
      · dsimp only at hq
        split at hq
        · exact hq
        · split at hq
          · rcases mem_setEnt hq with h' | h'
            · rw [h'] at hne; exact absurd rfl hne
            · exact h'.1
          · exact hq

theorem notifyKitchenOnCreate_items_cases (s : PosState) (iid : ℕ) {it : OrderItem}
    (hit : lookupEnt s.items iid = some it) :
    (notifyKitchenOnCreate s iid).items = s.items ∨
    (notifyKitchenOnCreate s iid).items =
      setEnt s.items iid { it with is_confirmed := true, confirmed_at := some s.now } := by
  unfold notifyKitchenOnCreate
  split
  · exact Or.inl rfl
  next it' heq =>
    rw [hit] at heq
    obtain rfl := Option.some.inj heq
    split
    · exact Or.inl rfl
    · split
      · exact Or.inl rfl
      · dsimp only
        split
        · exact Or.inr rfl
        · split
          · exact Or.inr rfl
          · exact Or.inr rfl

theorem recomputeTotalsView_shape (s : PosState) (oid : ℕ) :
    ∃ ords, recomputeTotalsView s oid = { s with orders := ords } := by
  unfold recomputeTotalsView
  split
  · exact ⟨s.orders, rfl⟩
  · exact ⟨_, rfl⟩

theorem recomputeTotalsViewDelete_shape (s : PosState) (oid : ℕ) :
    ∃ ords, recomputeTotalsViewDelete s oid = { s with orders := ords } := by
  unfold recomputeTotalsViewDelete
  split
  · exact ⟨s.orders, rfl⟩
  · split
    · exact ⟨_, rfl⟩
    · exact ⟨_, rfl⟩

theorem returnStockDirect_shape (s : PosState) (it : OrderItem) :
    ∃ prods, returnStockDirect s it = { s with products := prods } := by
  unfold returnStockDirect
  split
  · exact ⟨s.products, rfl⟩
  · exact ⟨_, rfl⟩

theorem orderEntryCorrect_congr {items items' : List (ℕ × OrderItem)} {q : ℕ × Order}
    (h : itemsOf items' q.1 = itemsOf items q.1) (hc : OrderEntryCorrect items q) :
    OrderEntryCorrect items' q := by
  unfold OrderEntryCorrect at hc ⊢
  rw [h]
  exact hc

/-- The manual recomputation at the end of the add-item branch makes the
touched order's totals correct and keeps every other order's totals. -/
theorem recomputeTotalsView_totals {s : PosState} {oid : ℕ}
    (hoff : TotalsCorrectOff s oid) : TotalsCorrect (recomputeTotalsView s oid) := by
  unfold TotalsCorrect recomputeTotalsView
  split
  next hnone =>
    intro q hq
    exact hoff q hq (lookupEnt_eq_none hnone q hq)
  next o ho =>
    dsimp only
    intro q hq
    rcases mem_setEnt hq with h' | h'
    · subst h'
      exact ⟨rfl, rfl, rfl⟩
    · exact hoff q h'.1 h'.2

/-- Same for the recomputation in the delete-item branch. -/
theorem recomputeTotalsViewDelete_totals {s : PosState} {oid : ℕ}
    (hoff : TotalsCorrectOff s oid) : TotalsCorrect (recomputeTotalsViewDelete s oid) := by
  unfold TotalsCorrect recomputeTotalsViewDelete
  split
  next hnone =>
    intro q hq
    exact hoff q hq (lookupEnt_eq_none hnone q hq)
  next o ho =>
    split
    next hempty =>
      dsimp only
      intro q hq
      rcases mem_setEnt hq with h' | h'
      · subst h'
        have : itemsOf s.items oid = [] := by
          simpa using hempty
        refine ⟨?_, by norm_num [TAX_RATE], by norm_num⟩
        show (0 : ℚ) = subSum (itemsOf s.items oid)
        rw [this]
        rfl
      · exact hoff q h'.1 h'.2
    next hnonempty =>
      dsimp only
      intro q hq
      rcases mem_setEnt hq with h' | h'
      · subst h'
        exact ⟨rfl, rfl, rfl⟩
      · exact hoff q h'.1 h'.2

theorem itemsOf_delEnt {l : List (ℕ × OrderItem)} {iid : ℕ} {it : OrderItem} {oid' : ℕ}
    (hnd : (l.map Prod.fst).Nodup) (hl : lookupEnt l iid = some it)
    (hne : it.order ≠ oid') :
    itemsOf (delEnt l iid) oid' = itemsOf l oid' := by
  obtain ⟨l₁, l₂, heq, hdel, _, _⟩ := delEnt_of_nodup hnd hl
  rw [hdel, heq, itemsOf_append, itemsOf_append]
  congr 1
  show itemsOf l₂ oid' = itemsOf ((iid, it) :: l₂) oid'
  unfold itemsOf
  rw [List.filter_cons_of_neg (by simpa using hne)]

theorem qpSum_eq_subSum {items : List (ℕ × OrderItem)}
    (hl : ∀ p ∈ items, p.2.subtotal = p.2.quantity * p.2.unit_price) (oid : ℕ) :
    subSum (itemsOf items oid) = qpSum (itemsOf items oid) := by
  unfold subSum qpSum
  congr 1
  apply List.map_congr_left
  intro p hp
  exact hl p (List.mem_filter.mp hp).1

/-- Invariant preservation along the whole success path of the add-item
branch, for any freshly built item row of the touched order. -/
theorem stateInv_addPath {s : PosState} {oid : ℕ} {it : OrderItem}
    (hinv : StateInv s) (hord : it.order = oid)
    (hsub : it.subtotal = it.quantity * it.unit_price) :
    StateInv (recomputeTotalsView (setPendingPreparing (notifyKitchenOnCreate
      (recomputeTotalsSignal
        (deductInventoryOnOrder (addItemRow s s.nextItemId it) it) oid)
      s.nextItemId) oid) oid) := by
  obtain ⟨hlock, htot, hnd, hfresh⟩ := hinv
  have hfresh' : ∀ p ∈ s.items, p.1 ≠ s.nextItemId :=
    fun p hp => Nat.ne_of_lt (hfresh p hp)
  obtain ⟨prods₁, movs₁, al₁, hd⟩ :=
    deductInventoryOnOrder_shape (addItemRow s s.nextItemId it) it
  obtain ⟨ords₂, hsig⟩ :=
    recomputeTotalsSignal_shape
      (deductInventoryOnOrder (addItemRow s s.nextItemId it) it) oid
  have hitems2 :
      (recomputeTotalsSignal
        (deductInventoryOnOrder (addItemRow s s.nextItemId it) it) oid).items =
      s.items ++ [(s.nextItemId, it)] := by
    rw [hsig, hd]
    rfl
  have hit2 :
      lookupEnt (recomputeTotalsSignal
        (deductInventoryOnOrder (addItemRow s s.nextItemId it) it) oid).items
        s.nextItemId = some it := by
    rw [hitems2]
    exact lookupEnt_append_fresh _ _ _ hfresh'
  obtain ⟨itX, hXord, hXsub, hXq, hXp, hitems3⟩ :
      ∃ itX : OrderItem, itX.order = it.order ∧ itX.subtotal = it.subtotal ∧
        itX.quantity = it.quantity ∧ itX.unit_price = it.unit_price ∧
        (notifyKitchenOnCreate
          (recomputeTotalsSignal
            (deductInventoryOnOrder (addItemRow s s.nextItemId it) it) oid)
          s.nextItemId).items = s.items ++ [(s.nextItemId, itX)] := by
    rcases notifyKitchenOnCreate_items_cases _ s.nextItemId hit2 with h3 | h3
    · exact ⟨it, rfl, rfl, rfl, rfl, by rw [h3, hitems2]⟩
    · exact ⟨{ it with is_confirmed := true, confirmed_at := some (recomputeTotalsSignal (deductInventoryOnOrder (addItemRow s s.nextItemId it) it) oid).now }, rfl, rfl, rfl, rfl, by rw [h3, hitems2, setEnt_append_fresh _ _ _ _ hfresh']⟩
  obtain ⟨its₃, ords₃, hnot⟩ :=
    notifyKitchenOnCreate_shape
      (recomputeTotalsSignal
        (deductInventoryOnOrder (addItemRow s s.nextItemId it) it) oid) s.nextItemId
  obtain ⟨ords₄, hsp⟩ :=
    setPendingPreparing_shape
      (notifyKitchenOnCreate
        (recomputeTotalsSignal
          (deductInventoryOnOrder (addItemRow s s.nextItemId it) it) oid)
        s.nextItemId) oid
  obtain ⟨ords₅, hview⟩ :=
    recomputeTotalsView_shape
      (setPendingPreparing
        (notifyKitchenOnCreate
          (recomputeTotalsSignal
            (deductInventoryOnOrder (addItemRow s s.nextItemId it) it) oid)
          s.nextItemId) oid) oid
  have hitems4 :
      (setPendingPreparing
        (notifyKitchenOnCreate
          (recomputeTotalsSignal
            (deductInventoryOnOrder (addItemRow s s.nextItemId it) it) oid)
          s.nextItemId) oid).items = s.items ++ [(s.nextItemId, itX)] := by
    rw [hsp]
    exact hitems3
  have hitems5 :
      (recomputeTotalsView (setPendingPreparing (notifyKitchenOnCreate
        (recomputeTotalsSignal
          (deductInventoryOnOrder (addItemRow s s.nextItemId it) it) oid)
        s.nextItemId) oid) oid).items = s.items ++ [(s.nextItemId, itX)] := by
    rw [hview]
    exact hitems4
  have hnid5 :
      (recomputeTotalsView (setPendingPreparing (notifyKitchenOnCreate
        (recomputeTotalsSignal
          (deductInventoryOnOrder (addItemRow s s.nextItemId it) it) oid)
        s.nextItemId) oid) oid).nextItemId = s.nextItemId + 1 := by
    rw [hview, hsp, hnot, hsig, hd]
    rfl
  refine ⟨?_, ?_, ?_, ?_⟩
  · -- ItemsLocked
    intro p hp
    rw [hitems5] at hp
    rcases List.mem_append.mp hp with h | h
    · exact hlock p h
    · obtain rfl := List.mem_singleton.mp h
      show itX.subtotal = itX.quantity * itX.unit_price
      rw [hXsub, hXq, hXp]
      exact hsub
  · -- TotalsCorrect
    apply recomputeTotalsView_totals
    intro q hq hne
    have hq3 := setPendingPreparing_orders_off hq hne
    have hne' : q.1 ≠ it.order := by rw [hord]; exact hne
    have hq2 := notifyKitchenOnCreate_orders_off hit2 hq3 hne'
    have hq1 := recomputeTotalsSignal_orders_off hq2 hne
    have hq0 : q ∈ s.orders := by rw [hd] at hq1; exact hq1
    refine orderEntryCorrect_congr ?_ (htot q hq0)
    rw [hitems4, itemsOf_append,
        itemsOf_single_ne _ _ _ (by rw [hXord, hord]; exact fun hc => hne hc.symm),
        List.append_nil]
  · -- distinct keys
    rw [hitems5, List.map_append]
    have hmem : s.nextItemId ∉ s.items.map Prod.fst := by
      intro hmem
      rcases List.mem_map.mp hmem with ⟨p, hp, hpe⟩
      exact hfresh' p hp hpe
    refine List.Nodup.append hnd (List.nodup_singleton _) ?_
    intro a ha hb
    simp only [List.map_cons, List.map_nil, List.mem_singleton] at hb
    subst hb
    exact hmem ha
  · -- id bound
    intro p hp
    rw [hitems5] at hp
    rw [hnid5]
    rcases List.mem_append.mp hp with h | h
    · exact Nat.lt_trans (hfresh p h) (Nat.lt_succ_self _)
    · obtain rfl := List.mem_singleton.mp h
      exact Nat.lt_succ_self _

/-- Invariant preservation along the whole success path of the delete-item
branch. -/
theorem stateInv_removePath {s : PosState} {oid iid : ℕ} {it : OrderItem}
    (hinv : StateInv s) (hitem : lookupEnt s.items iid = some it)
    (hord : it.order = oid) :
    StateInv (recomputeTotalsViewDelete
      { returnStockDirect s it with
        items := delEnt (returnStockDirect s it).items iid } oid) := by
  obtain ⟨hlock, htot, hnd, hfresh⟩ := hinv
  obtain ⟨prods₁, hret⟩ := returnStockDirect_shape s it
  have hitems2 :
      ({ returnStockDirect s it with
          items := delEnt (returnStockDirect s it).items iid } : PosState).items =
      delEnt s.items iid := by
    rw [hret]
  obtain ⟨ords₃, hview⟩ :=
    recomputeTotalsViewDelete_shape
      { returnStockDirect s it with
        items := delEnt (returnStockDirect s it).items iid } oid
  have hitems3 :
      (recomputeTotalsViewDelete
        { returnStockDirect s it with
          items := delEnt (returnStockDirect s it).items iid } oid).items =
      delEnt s.items iid := by
    rw [hview]
    exact hitems2
  have hnid3 :
      (recomputeTotalsViewDelete
        { returnStockDirect s it with
          items := delEnt (returnStockDirect s it).items iid } oid).nextItemId =
      s.nextItemId := by
    rw [hview, hret]
  refine ⟨?_, ?_, ?_, ?_⟩
  · intro p hp
    rw [hitems3] at hp
    exact hlock p (mem_delEnt hp).1
  · apply recomputeTotalsViewDelete_totals
    intro q hq hne
    have hq0 : q ∈ s.orders := by rw [hret] at hq; exact hq
    refine orderEntryCorrect_congr ?_ (htot q hq0)
    rw [hitems2]
    exact itemsOf_delEnt hnd hitem (by rw [hord]; exact fun hc => hne hc.symm)
  · rw [hitems3]
    have hsub : (delEnt s.items iid).Sublist s.items := List.filter_sublist _
    exact hnd.sublist (hsub.map Prod.fst)
  · intro p hp
    rw [hitems3] at hp
    rw [hnid3]
    exact hfresh p (mem_delEnt hp).1

theorem stateInv_addItem {s s' : PosState} {oid pid : ℕ} {qty : ℚ} {instr : String}
    (hinv : StateInv s) (h : waiterAddItem s oid pid qty instr = Except.ok s') :
    StateInv s' := by
  unfold waiterAddItem at h
  split at h
  · exact absurd h (by simp)
  · split at h
    · exact absurd h (by simp)
    · split at h
      · exact absurd h (by simp)
      · split at h
        · exact absurd h (by simp)
        · split at h
          · exact absurd h (by simp)
          · obtain rfl := Except.ok.inj h
            exact stateInv_addPath hinv rfl rfl

theorem stateInv_removeItem {s s' : PosState} {oid iid : ℕ}
    (hinv : StateInv s) (h : waiterRemoveItem s oid iid = Except.ok s') :
    StateInv s' := by
  unfold waiterRemoveItem at h
  split at h
  · exact absurd h (by simp)
  · split at h
    · exact absurd h (by simp)
    · split at h
      · exact absurd h (by simp)
      next it hitem =>
        split at h
        · exact absurd h (by simp)
        next hordne =>
          split at h
          · exact absurd h (by simp)
          · obtain rfl := Except.ok.inj h
            exact stateInv_removePath hinv hitem (not_ne_iff.mp hordne)

theorem stateInv_applyWaiterOp (s : PosState) (op : WaiterOp) (hinv : StateInv s) :
    StateInv (applyWaiterOp s op) := by
  cases op with
  | add oid pid qty instr =>
      dsimp only [applyWaiterOp]
      split
      next heq => exact stateInv_addItem hinv heq
      next => exact hinv
  | remove oid iid =>
      dsimp only [applyWaiterOp]
      split
      next heq => exact stateInv_removeItem hinv heq
      next => exact hinv

theorem stateInv_applyWaiterOps (s : PosState) (ops : List WaiterOp)
    (hinv : StateInv s) : StateInv (applyWaiterOps s ops) := by
  induction ops generalizing s with
  | nil => exact hinv
  | cons op ops ih => exact ih _ (stateInv_applyWaiterOp s op hinv)

/-- A concrete product used by the witnesses. -/
def baseProduct : Product :=
  { current_price := 1000
    stock_quantity := 50
    min_stock_level := 10
    is_available := true
    is_active := true
    requires_kitchen := true }

/-- A concrete open empty order used by the witnesses. -/
def baseOrder : Order :=
  { table := some 1
    status := OrderStatus.pending
    subtotal := 0
    tax_amount := 0
    total_amount := 0
    completed_at := none }

/-- A concrete baseline state used by the witnesses: one active kitchen
product, one occupied table, one open empty order. -/
def baseState : PosState :=
  { products := [(1, baseProduct)]
    tables := [(1, { is_occupied := true, is_active := true })]
    orders := [(1, baseOrder)]
    items := []
    payments := []
    movements := []
    auditLogs := 0
    nextOrderId := 2
    nextItemId := 1
    nextPaymentId := 1
    now := 0 }

/-- C1: for every order, once any sequence of item additions and removals
through the waiter view has settled, the stored totals satisfy
`subtotal = Σ(quantity × locked unit_price)` over the order's current items,
`tax_amount = subtotal × TAX_RATE` with `TAX_RATE` the single configured
constant, and `total_amount = subtotal + tax_amount
= Σ(quantity × unit_price) × (1 + TAX_RATE)`, regardless of the order of
calls. -/
theorem C1_totals_after_any_sequence (s : PosState) (ops : List WaiterOp)
    (hinv : StateInv s) (oid : ℕ) (o : Order)
    (ho : lookupEnt (applyWaiterOps s ops).orders oid = some o) :
    o.subtotal = qpSum (itemsOf (applyWaiterOps s ops).items oid) ∧
    o.tax_amount = o.subtotal * TAX_RATE ∧
    o.total_amount = o.subtotal + o.tax_amount ∧
    o.total_amount = qpSum (itemsOf (applyWaiterOps s ops).items oid) * (1 + TAX_RATE) := by
  obtain ⟨hl, ht, -, -⟩ := stateInv_applyWaiterOps s ops hinv
  obtain ⟨h1, h2, h3⟩ := ht (oid, o) (lookupEnt_eq_some_mem ho)
  have hqp := qpSum_eq_subSum hl oid
  refine ⟨by rw [h1]; exact hqp, h2, h3, ?_⟩
  rw [h3, h2, h1, hqp]
  ring

/-! ### Payment lemmas -/

theorem markOrderCompletedOnPayment_shape (s : PosState) (pay : Payment) :
    ∃ ords tbls, markOrderCompletedOnPayment s pay =
      { s with orders := ords, tables := tbls } := by
  unfold markOrderCompletedOnPayment
  split
  · exact ⟨s.orders, s.tables, rfl⟩
  · split
    · dsimp only
      split
      · exact ⟨_, s.tables, rfl⟩
      · split
        · exact ⟨_, s.tables, rfl⟩
        · exact ⟨_, _, rfl⟩
    · exact ⟨s.orders, s.tables, rfl⟩

theorem paidTotal_append (s : PosState) (k : ℕ) (pay : Payment) (oid : ℕ)
    (ho : pay.order = oid) :
    paidTotal (appendPayment s k pay) oid = paidTotal s oid + pay.amount := by
  unfold paidTotal appendPayment
  show (((s.payments ++ [(k, pay)]).filter _).map _).sum = _
  rw [List.filter_append, List.map_append, List.sum_append]
  congr 1
  rw [List.filter_cons_of_pos (by simpa using ho)]
  simp

/-- Characterization of the completion-detection signal on a state already
holding the new payment row. -/
theorem markOrderCompletedOnPayment_spec (s : PosState) (pay : Payment) (o : Order)
    (ho : lookupEnt s.orders pay.order = some o) :
    (markOrderCompletedOnPayment s pay).payments = s.payments ∧
    lookupEnt (markOrderCompletedOnPayment s pay).orders pay.order =
      some (if o.total_amount ≤ paidTotal s pay.order then
        { o with status := OrderStatus.completed, completed_at := some s.now } else o) ∧
    (∀ tid t, o.table = some tid → lookupEnt s.tables tid = some t →
      lookupEnt (markOrderCompletedOnPayment s pay).tables tid =
        some (if o.total_amount ≤ paidTotal s pay.order then
          { t with is_occupied := false } else t)) := by
  unfold markOrderCompletedOnPayment
  split
  next heq => rw [ho] at heq; exact absurd heq (by simp)
  next o₂ heq =>
    rw [ho] at heq
    obtain rfl := Option.some.inj heq
    split
    next hc =>
      dsimp only
      split
      next htab0 =>
        refine ⟨rfl, lookupEnt_setEnt_self _ _ _ _ ho, ?_⟩
        intro tid t htab' _
        rw [htab0] at htab'
        exact absurd htab' (by simp)
      next tid htab0 =>
        split
        next ht0 =>
          refine ⟨rfl, lookupEnt_setEnt_self _ _ _ _ ho, ?_⟩
          intro tid' t htab' ht'
          rw [htab0] at htab'
          obtain rfl := Option.some.inj htab'
          rw [ht'] at ht0
          exact absurd ht0 (by simp)
        next t ht0 =>
          refine ⟨rfl, lookupEnt_setEnt_self _ _ _ _ ho, ?_⟩
          intro tid' t' htab' ht'
          rw [htab0] at htab'
          obtain rfl := Option.some.inj htab'
          rw [ht'] at ht0
          obtain rfl := Option.some.inj ht0
          exact lookupEnt_setEnt_self _ _ _ _ ht'
    next hc =>
      exact ⟨rfl, ho, fun tid t _ ht' => ht'⟩

/-- Full characterization of `recordPayment`: the payment row is appended and
the completion signal marks the order completed (stamping the time and
freeing the table) exactly when the accumulated payments reach the total. -/
theorem recordPayment_spec (s : PosState) (oid : ℕ) (amt : ℚ)
    (method : PaymentMethod) (ref : String) (o : Order)
    (ho : lookupEnt s.orders oid = some o) :
    (recordPayment s oid amt method ref).payments =
      s.payments ++ [(s.nextPaymentId, mkPayment oid amt method ref)] ∧
    paidTotal (recordPayment s oid amt method ref) oid = paidTotal s oid + amt ∧
    lookupEnt (recordPayment s oid amt method ref).orders oid =
      some (if o.total_amount ≤ paidTotal s oid + amt then
        { o with status := OrderStatus.completed, completed_at := some s.now } else o) ∧
    (∀ tid t, o.table = some tid → lookupEnt s.tables tid = some t →
      lookupEnt (recordPayment s oid amt method ref).tables tid =
        some (if o.total_amount ≤ paidTotal s oid + amt then
          { t with is_occupied := false } else t)) := by
  have hpaid1 : paidTotal (appendPayment s s.nextPaymentId (mkPayment oid amt method ref))
      oid = paidTotal s oid + amt :=
    paidTotal_append s s.nextPaymentId (mkPayment oid amt method ref) oid rfl
  have ho' : lookupEnt (appendPayment s s.nextPaymentId
      (mkPayment oid amt method ref)).orders (mkPayment oid amt method ref).order = some o := ho
  obtain ⟨hpay, hord, htab⟩ :=
    markOrderCompletedOnPayment_spec
      (appendPayment s s.nextPaymentId (mkPayment oid amt method ref))
      (mkPayment oid amt method ref) o ho'
  have hord2 : lookupEnt (recordPayment s oid amt method ref).orders oid =
      some (if o.total_amount ≤
          paidTotal (appendPayment s s.nextPaymentId (mkPayment oid amt method ref)) oid then
        { o with status := OrderStatus.completed, completed_at := some s.now } else o) := hord
  have htab2 : ∀ tid t, o.table = some tid → lookupEnt s.tables tid = some t →
      lookupEnt (recordPayment s oid amt method ref).tables tid =
        some (if o.total_amount ≤
            paidTotal (appendPayment s s.nextPaymentId (mkPayment oid amt method ref)) oid then
          { t with is_occupied := false } else t) := htab
  rw [hpaid1] at hord2 htab2
  refine ⟨?_, ?_, hord2, fun tid t h1 h2 => htab2 tid t h1 h2⟩
  · rw [show (recordPayment s oid amt method ref).payments =
        (markOrderCompletedOnPayment
          (appendPayment s s.nextPaymentId (mkPayment oid amt method ref))
          (mkPayment oid amt method ref)).payments from rfl, hpay]
    rfl
  · show paidTotal (markOrderCompletedOnPayment
        (appendPayment s s.nextPaymentId (mkPayment oid amt method ref))
        (mkPayment oid amt method ref)) oid = paidTotal s oid + amt
    unfold paidTotal
    rw [hpay]
    exact hpaid1

/-! ### Completion events and table freeing

The claim that an order becomes `completed` (and its table becomes free)
exactly at a fully-paying payment needs, besides the payment postcondition,
that no other operation ever sets a status to `completed` or an occupied
flag to false. -/

/-- No order is completed in `s'` that was not already completed in `s`. -/
def NoNewCompletion (s s' : PosState) : Prop :=
  ∀ q' ∈ s'.orders, q'.2.status = OrderStatus.completed →
    ∃ q ∈ s.orders, q.1 = q'.1 ∧ q.2.status = OrderStatus.completed

/-- No table is free in `s'` that was not already free in `s`. -/
def NoNewFreeTable (s s' : PosState) : Prop :=
  ∀ t' ∈ s'.tables, t'.2.is_occupied = false →
    ∃ t ∈ s.tables, t.1 = t'.1 ∧ t.2.is_occupied = false

theorem noNewCompletion_of_eq {s s' : PosState} (h : s'.orders = s.orders) :
    NoNewCompletion s s' := by
  intro q' hq' hc
  rw [h] at hq'
  exact ⟨q', hq', rfl, hc⟩

theorem noNewFreeTable_of_eq {s s' : PosState} (h : s'.tables = s.tables) :
    NoNewFreeTable s s' := by
  intro t' ht' hc
  rw [h] at ht'
  exact ⟨t', ht', rfl, hc⟩

theorem noNewCompletion_trans {s t u : PosState}
    (h1 : NoNewCompletion s t) (h2 : NoNewCompletion t u) : NoNewCompletion s u := by
  intro q' hq' hc
  obtain ⟨q₁, hq₁, hk₁, hc₁⟩ := h2 q' hq' hc
  obtain ⟨q₀, hq₀, hk₀, hc₀⟩ := h1 q₁ hq₁ hc₁
  exact ⟨q₀, hq₀, hk₀.trans hk₁, hc₀⟩

theorem noNewFreeTable_trans {s t u : PosState}
    (h1 : NoNewFreeTable s t) (h2 : NoNewFreeTable t u) : NoNewFreeTable s u := by
  intro t' ht' hc
  obtain ⟨t₁, ht₁, hk₁, hc₁⟩ := h2 t' ht' hc
  obtain ⟨t₀, ht₀, hk₀, hc₀⟩ := h1 t₁ ht₁ hc₁
  exact ⟨t₀, ht₀, hk₀.trans hk₁, hc₀⟩

theorem deductInventoryOnOrder_orders (s : PosState) (it : OrderItem) :
    (deductInventoryOnOrder s it).orders = s.orders := by
  unfold deductInventoryOnOrder
  split <;> rfl

theorem deductInventoryOnOrder_tables (s : PosState) (it : OrderItem) :
    (deductInventoryOnOrder s it).tables = s.tables := by
  unfold deductInventoryOnOrder
  split <;> rfl

theorem recomputeTotalsSignal_tables (s : PosState) (oid : ℕ) :
    (recomputeTotalsSignal s oid).tables = s.tables := by
  unfold recomputeTotalsSignal
  split <;> rfl

theorem recomputeTotalsView_tables (s : PosState) (oid : ℕ) :
    (recomputeTotalsView s oid).tables = s.tables := by
  unfold recomputeTotalsView
  split <;> rfl

theorem recomputeTotalsViewDelete_tables (s : PosState) (oid : ℕ) :
    (recomputeTotalsViewDelete s oid).tables = s.tables := by
  unfold recomputeTotalsViewDelete
  split
  · rfl
  · split <;> rfl

theorem setPendingPreparing_tables (s : PosState) (oid : ℕ) :
    (setPendingPreparing s oid).tables = s.tables := by
  unfold setPendingPreparing
  split
  · rfl
  · split <;> rfl

theorem notifyKitchenOnCreate_tables (s : PosState) (iid : ℕ) :
    (notifyKitchenOnCreate s iid).tables = s.tables := by
  obtain ⟨its, ords, heq⟩ := notifyKitchenOnCreate_shape s iid
  rw [heq]

theorem returnStockDirect_orders (s : PosState) (it : OrderItem) :
    (returnStockDirect s it).orders = s.orders := by
  unfold returnStockDirect
  split <;> rfl

theorem returnStockDirect_tables (s : PosState) (it : OrderItem) :
    (returnStockDirect s it).tables = s.tables := by
  unfold returnStockDirect
  split <;> rfl

theorem recomputeTotalsSignal_noNewCompletion (s : PosState) (oid : ℕ) :
    NoNewCompletion s (recomputeTotalsSignal s oid) := by
  intro q' hq' hc
  unfold recomputeTotalsSignal at hq'
  split at hq'
  · exact ⟨q', hq', rfl, hc⟩
  next o ho =>
    rcases mem_setEnt hq' with h' | h'
    · subst h'
      exact ⟨(oid, o), lookupEnt_eq_some_mem ho, rfl, hc⟩
    · exact ⟨q', h'.1, rfl, hc⟩

theorem recomputeTotalsView_noNewCompletion (s : PosState) (oid : ℕ) :
    NoNewCompletion s (recomputeTotalsView s oid) := by
  intro q' hq' hc
  unfold recomputeTotalsView at hq'
  split at hq'
  · exact ⟨q', hq', rfl, hc⟩
  next o ho =>
    rcases mem_setEnt hq' with h' | h'
    · subst h'
      exact ⟨(oid, o), lookupEnt_eq_some_mem ho, rfl, hc⟩
    · exact ⟨q', h'.1, rfl, hc⟩

theorem recomputeTotalsViewDelete_noNewCompletion (s : PosState) (oid : ℕ) :
    NoNewCompletion s (recomputeTotalsViewDelete s oid) := by
  intro q' hq' hc
  unfold recomputeTotalsViewDelete at hq'
  split at hq'
  · exact ⟨q', hq', rfl, hc⟩
  next o ho =>
    split at hq'
    · rcases mem_setEnt hq' with h' | h'
      · subst h'
        exact ⟨(oid, o), lookupEnt_eq_some_mem ho, rfl, hc⟩
      · exact ⟨q', h'.1, rfl, hc⟩
    · rcases mem_setEnt hq' with h' | h'
      · subst h'
        exact ⟨(oid, o), lookupEnt_eq_some_mem ho, rfl, hc⟩
      · exact ⟨q', h'.1, rfl, hc⟩

theorem setPendingPreparing_noNewCompletion (s : PosState) (oid : ℕ) :
    NoNewCompletion s (setPendingPreparing s oid) := by
  intro q' hq' hc
  unfold setPendingPreparing at hq'
  split at hq'
  · exact ⟨q', hq', rfl, hc⟩
  · split at hq'
    · rcases mem_setEnt hq' with h' | h'
      · subst h'
        exact OrderStatus.noConfusion hc
      · exact ⟨q', h'.1, rfl, hc⟩
    · exact ⟨q', hq', rfl, hc⟩

theorem notifyKitchenOnCreate_noNewCompletion (s : PosState) (iid : ℕ) :
    NoNewCompletion s (notifyKitchenOnCreate s iid) := by
  intro q' hq' hc
  unfold notifyKitchenOnCreate at hq'
  split at hq'
  · exact ⟨q', hq', rfl, hc⟩
  · split at hq'
    · exact ⟨q', hq', rfl, hc⟩
    · split at hq'
      · exact ⟨q', hq', rfl, hc⟩
      · dsimp only at hq'
        split at hq'
        · exact ⟨q', hq', rfl, hc⟩
        · split at hq'
          · rcases mem_setEnt hq' with h' | h'
            · subst h'
              exact OrderStatus.noConfusion hc
            · exact ⟨q', h'.1, rfl, hc⟩
          · exact ⟨q', hq', rfl, hc⟩

theorem waiterAddItem_ok_noNew {s s' : PosState} {oid pid : ℕ} {qty : ℚ} {instr : String}
    (h : waiterAddItem s oid pid qty instr = Except.ok s') :
    NoNewCompletion s s' ∧ NoNewFreeTable s s' := by
  unfold waiterAddItem at h
  split at h
  · exact absurd h (by simp)
  · split at h
    · exact absurd h (by simp)
    · split at h
      · exact absurd h (by simp)
      next prod hp =>
        split at h
        · exact absurd h (by simp)
        · split at h
          · exact absurd h (by simp)
          · obtain rfl := Except.ok.inj h
            constructor
            · have hstep1 : NoNewCompletion s
                  (deductInventoryOnOrder
                    (addItemRow s s.nextItemId
                      (newOrderItem oid pid qty prod.current_price prod.current_price instr))
                    (newOrderItem oid pid qty prod.current_price prod.current_price instr)) :=
                noNewCompletion_of_eq (deductInventoryOnOrder_orders _ _)
              refine noNewCompletion_trans hstep1 ?_
              refine noNewCompletion_trans (recomputeTotalsSignal_noNewCompletion _ oid) ?_
              refine noNewCompletion_trans
                (notifyKitchenOnCreate_noNewCompletion _ s.nextItemId) ?_
              refine noNewCompletion_trans (setPendingPreparing_noNewCompletion _ oid) ?_
              exact recomputeTotalsView_noNewCompletion _ oid
            · apply noNewFreeTable_of_eq
              rw [recomputeTotalsView_tables, setPendingPreparing_tables,
                  notifyKitchenOnCreate_tables, recomputeTotalsSignal_tables,
                  deductInventoryOnOrder_tables]
              rfl

theorem waiterRemoveItem_ok_noNew {s s' : PosState} {oid iid : ℕ}
    (h : waiterRemoveItem s oid iid = Except.ok s') :
    NoNewCompletion s s' ∧ NoNewFreeTable s s' := by
  unfold waiterRemoveItem at h
  split at h
  · exact absurd h (by simp)
  · split at h
    · exact absurd h (by simp)
    · split at h
      · exact absurd h (by simp)
      next it hitem =>
        split at h
        · exact absurd h (by simp)
        · split at h
          · exact absurd h (by simp)
          · obtain rfl := Except.ok.inj h
            constructor
            · refine noNewCompletion_trans
                (noNewCompletion_of_eq (returnStockDirect_orders s it)) ?_
              exact recomputeTotalsViewDelete_noNewCompletion _ oid
            · apply noNewFreeTable_of_eq
              rw [recomputeTotalsViewDelete_tables]
              exact returnStockDirect_tables s it

theorem paymentSaveUpdate_ne_ok (s : PosState) (payId : ℕ) (inst : Payment)
    (s₀ : PosState) : paymentSaveUpdate s payId inst ≠ Except.ok s₀ := by
  unfold paymentSaveUpdate
  split <;> simp

theorem orderItemSave_ok_noNew {s s' : PosState} {iid : ℕ} {inst : OrderItem}
    (h : orderItemSave s iid inst = Except.ok s') :
    NoNewCompletion s s' ∧ s'.tables = s.tables := by
  unfold orderItemSave at h
  split at h
  · exact absurd h (by simp)
  · split at h
    · exact absurd h (by simp)
    · split at h
      · exact absurd h (by simp)
      · obtain rfl := Except.ok.inj h
        constructor
        · exact noNewCompletion_trans (noNewCompletion_of_eq rfl)
            (recomputeTotalsSignal_noNewCompletion _ _)
        · obtain ⟨ords, hsig⟩ := recomputeTotalsSignal_shape _ _
          rw [hsig]

theorem kitchenConfirmItem_ok_noNew {s s' : PosState} {iid : ℕ}
    (h : kitchenConfirmItem s iid = Except.ok s') :
    NoNewCompletion s s' ∧ NoNewFreeTable s s' := by
  unfold kitchenConfirmItem at h
  split at h
  · exact absurd h (by simp)
  next it hit =>
    split at h
    · exact absurd h (by simp)
    next s₁ hsave =>
      obtain ⟨hs₁, htabs₁⟩ := orderItemSave_ok_noNew hsave
      split at h
      · obtain rfl := Except.ok.inj h
        exact ⟨hs₁, noNewFreeTable_of_eq htabs₁⟩
      next o ho =>
        split at h
        · obtain rfl := Except.ok.inj h
          constructor
          · refine noNewCompletion_trans hs₁ ?_
            intro q' hq' hc
            rcases mem_setEnt hq' with h' | h'
            · subst h'
              exact OrderStatus.noConfusion hc
            · exact ⟨q', h'.1, rfl, hc⟩
          · exact noNewFreeTable_of_eq htabs₁
        · obtain rfl := Except.ok.inj h
          exact ⟨hs₁, noNewFreeTable_of_eq htabs₁⟩

theorem inventoryAdjust_ok_shape {s s' : PosState} {pid : ℕ} {qty : ℚ}
    {ty : MovementType} (h : inventoryAdjust s pid qty ty = Except.ok s') :
    s'.orders = s.orders ∧ s'.tables = s.tables := by
  unfold inventoryAdjust at h
  split at h
  · exact absurd h (by simp)
  · split at h
    · exact absurd h (by simp)
    · split at h
      · exact absurd h (by simp)
      · obtain rfl := Except.ok.inj h
        exact ⟨rfl, rfl⟩

theorem apiPrintReceipt_ok_state {s : PosState} {payId : ℕ} {ok : Bool}
    {r : PosState × ReceiptData × Bool} (h : apiPrintReceipt s payId ok = Except.ok r) :
    r.1 = s := by
  unfold apiPrintReceipt at h
  split at h
  · exact absurd h (by simp)
  · split at h
    · exact absurd h (by simp)
    · split at h
      · split at h
        next s₀ hsave => exact absurd hsave (paymentSaveUpdate_ne_ok _ _ _ _)
        next => exact absurd h (by simp)
      · obtain rfl := Except.ok.inj h
        rfl

theorem waiterCreateOrder_ok_noNew {s s' : PosState} {tid oid' : ℕ}
    (h : waiterCreateOrder s tid = Except.ok (s', oid')) :
    NoNewCompletion s s' ∧ NoNewFreeTable s s' := by
  unfold waiterCreateOrder at h
  split at h
  · exact absurd h (by simp)
  next t ht =>
    split at h
    · exact absurd h (by simp)
    · split at h
      · -- redirect to the existing order, state unchanged
        injection Except.ok.inj h with h1 h2
        subst h1
        exact ⟨noNewCompletion_of_eq rfl, noNewFreeTable_of_eq rfl⟩
      · injection Except.ok.inj h with h1 h2
        subst h1
        constructor
        · intro q' hq' hc
          rcases List.mem_append.mp hq' with h' | h'
          · exact ⟨q', h', rfl, hc⟩
          · obtain rfl := List.mem_singleton.mp h'
            exact OrderStatus.noConfusion hc
        · intro t' ht' hc
          rcases mem_setEnt ht' with h' | h'
          · subst h'
            exact Bool.noConfusion hc
          · exact ⟨t', h'.1, rfl, hc⟩

/-- The validated success path of `cashier_process_payment` with the audit
write succeeding: all guards pass and the capped payment is recorded. -/
theorem cashierProcessPayment_ok (s : PosState) (oid : ℕ) (amount : ℚ)
    (method : PaymentMethod) (ref : String) (o : Order)
    (ho : lookupEnt s.orders oid = some o) (hnc : o.status ≠ OrderStatus.completed)
    (hamt : 0 < amount)
    (href : ¬((method = PaymentMethod.mobile_money ∨ method = PaymentMethod.orange_money) ∧
      ref = "")) :
    cashierProcessPayment s oid amount method ref true =
      Except.ok { recordPayment s oid
          (if o.total_amount - paidTotal s oid < amount then
            o.total_amount - paidTotal s oid else amount) method ref with
        auditLogs := (recordPayment s oid
          (if o.total_amount - paidTotal s oid < amount then
            o.total_amount - paidTotal s oid else amount) method ref).auditLogs + 1 } := by
  unfold cashierProcessPayment
  split
  next heq => rw [ho] at heq; exact absurd heq (by simp)
  next o₂ heq =>
    rw [ho] at heq
    obtain rfl := Option.some.inj heq
    rw [if_neg hnc, if_neg (not_le.mpr hamt), if_neg href]
    rfl

/-- Every modelled operation other than payment processing; the audit-
swallowing login step is state-identical on the orders/tables and omitted. -/
inductive NonPaymentOp
  | create (tid : ℕ)
  | add (oid pid : ℕ) (qty : ℚ) (instr : String)
  | remove (oid iid : ℕ)
  | confirm (iid : ℕ)
  | adjust (pid : ℕ) (qty : ℚ) (ty : MovementType)
  | printReceipt (payId : ℕ) (printerSuccess : Bool)

/-- Application of a non-payment operation; a rejected operation leaves the
state unchanged. -/
def applyNonPaymentOp (s : PosState) : NonPaymentOp → PosState
  | NonPaymentOp.create tid =>
      match waiterCreateOrder s tid with
      | Except.ok r => r.1
      | Except.error _ => s
  | NonPaymentOp.add oid pid qty instr => applyWaiterOp s (WaiterOp.add oid pid qty instr)
  | NonPaymentOp.remove oid iid => applyWaiterOp s (WaiterOp.remove oid iid)
  | NonPaymentOp.confirm iid =>
      match kitchenConfirmItem s iid with
      | Except.ok s' => s'
      | Except.error _ => s
  | NonPaymentOp.adjust pid qty ty =>
      match inventoryAdjust s pid qty ty with
      | Except.ok s' => s'
      | Except.error _ => s
  | NonPaymentOp.printReceipt payId printerSuccess =>
      match apiPrintReceipt s payId printerSuccess with
      | Except.ok r => r.1
      | Except.error _ => s

/-- No non-payment operation ever completes an order or frees a table. -/
theorem applyNonPaymentOp_noNew (s : PosState) (op : NonPaymentOp) :
    NoNewCompletion s (applyNonPaymentOp s op) ∧
    NoNewFreeTable s (applyNonPaymentOp s op) := by
  cases op with
  | create tid =>
      dsimp only [applyNonPaymentOp]
      split
      next r heq =>
        obtain ⟨s', oidr⟩ := r
        exact waiterCreateOrder_ok_noNew heq
      next => exact ⟨noNewCompletion_of_eq rfl, noNewFreeTable_of_eq rfl⟩
  | add oid pid qty instr =>
      dsimp only [applyNonPaymentOp, applyWaiterOp]
      split
      next heq => exact waiterAddItem_ok_noNew heq
      next => exact ⟨noNewCompletion_of_eq rfl, noNewFreeTable_of_eq rfl⟩
  | remove oid iid =>
      dsimp only [applyNonPaymentOp, applyWaiterOp]
      split
      next heq => exact waiterRemoveItem_ok_noNew heq
      next => exact ⟨noNewCompletion_of_eq rfl, noNewFreeTable_of_eq rfl⟩
  | confirm iid =>
      dsimp only [applyNonPaymentOp]
      split
      next heq => exact kitchenConfirmItem_ok_noNew heq
      next => exact ⟨noNewCompletion_of_eq rfl, noNewFreeTable_of_eq rfl⟩
  | adjust pid qty ty =>
      dsimp only [applyNonPaymentOp]
      split
      next heq =>
        obtain ⟨ho, ht⟩ := inventoryAdjust_ok_shape heq
        exact ⟨noNewCompletion_of_eq ho, noNewFreeTable_of_eq ht⟩
      next => exact ⟨noNewCompletion_of_eq rfl, noNewFreeTable_of_eq rfl⟩
  | printReceipt payId printerSuccess =>
      dsimp only [applyNonPaymentOp]
      split
      next r heq =>
        rw [apiPrintReceipt_ok_state heq]
        exact ⟨noNewCompletion_of_eq rfl, noNewFreeTable_of_eq rfl⟩
      next => exact ⟨noNewCompletion_of_eq rfl, noNewFreeTable_of_eq rfl⟩

/-- C2: for every order, processing a payment never lets the sum of recorded
payment amounts exceed the order's total: under the view's validations the
call succeeds, the recorded amount is the requested amount capped to
`remaining = total_amount - Σ(existing payments)` (in particular, a request
above the remaining balance is silently reduced to it rather than rejected),
and afterwards the order's payments sum to at most its unchanged total. -/
theorem C2_payment_capped_never_exceeds_total (s : PosState) (oid : ℕ) (amount : ℚ)
    (method : PaymentMethod) (ref : String) (o : Order)
    (ho : lookupEnt s.orders oid = some o) (hnc : o.status ≠ OrderStatus.completed)
    (hamt : 0 < amount)
    (href : ¬((method = PaymentMethod.mobile_money ∨ method = PaymentMethod.orange_money) ∧
      ref = "")) :
    ∃ s', cashierProcessPayment s oid amount method ref true = Except.ok s' ∧
      s'.payments = s.payments ++ [(s.nextPaymentId,
        mkPayment oid (if o.total_amount - paidTotal s oid < amount then
          o.total_amount - paidTotal s oid else amount) method ref)] ∧
      (o.total_amount - paidTotal s oid < amount →
        (mkPayment oid (if o.total_amount - paidTotal s oid < amount then
          o.total_amount - paidTotal s oid else amount) method ref).amount =
        o.total_amount - paidTotal s oid) ∧
      ∀ o', lookupEnt s'.orders oid = some o' →
        o'.total_amount = o.total_amount ∧ paidTotal s' oid ≤ o'.total_amount := by
  have hok := cashierProcessPayment_ok s oid amount method ref o ho hnc hamt href
  by_cases hlt : o.total_amount - paidTotal s oid < amount
  · rw [if_pos hlt] at hok ⊢
    obtain ⟨hpay, hpaid, hord, htab⟩ :=
      recordPayment_spec s oid (o.total_amount - paidTotal s oid) method ref o ho
    refine ⟨_, hok, hpay, fun _ => rfl, ?_⟩
    intro o' ho'
    have ho'' : lookupEnt (recordPayment s oid (o.total_amount - paidTotal s oid)
        method ref).orders oid = some o' := ho'
    obtain rfl := Option.some.inj (hord.symm.trans ho'')
    have hpaid' : paidTotal { recordPayment s oid (o.total_amount - paidTotal s oid)
        method ref with
        auditLogs := (recordPayment s oid (o.total_amount - paidTotal s oid)
          method ref).auditLogs + 1 } oid =
        paidTotal s oid + (o.total_amount - paidTotal s oid) := hpaid
    rw [hpaid']
    split
    · exact ⟨rfl, by linarith⟩
    · exact ⟨rfl, by linarith⟩
  · rw [if_neg hlt] at hok ⊢
    obtain ⟨hpay, hpaid, hord, htab⟩ := recordPayment_spec s oid amount method ref o ho
    refine ⟨_, hok, hpay, fun hc => absurd hc hlt, ?_⟩
    intro o' ho'
    have ho'' : lookupEnt (recordPayment s oid amount method ref).orders oid =
        some o' := ho'
    obtain rfl := Option.some.inj (hord.symm.trans ho'')
    have hpaid' : paidTotal { recordPayment s oid amount method ref with
        auditLogs := (recordPayment s oid amount method ref).auditLogs + 1 } oid =
        paidTotal s oid + amount := hpaid
    have hle : amount ≤ o.total_amount - paidTotal s oid := not_lt.mp hlt
    rw [hpaid']
    split
    · exact ⟨rfl, by linarith⟩
    · exact ⟨rfl, by linarith⟩

/-- C10: an order whose remaining balance is already zero but which is not
yet `completed` (e.g. a freshly created order with no items, `total = 0`)
accepts any positive payment request: the `amount > 0` validation applies
only to the caller's input before capping, the cap reduces the recorded
amount to the zero remaining balance, a zero-amount `Payment` row is created
(model validators do not run at `objects.create`), and the zero payment
drives the order to `completed`. -/
theorem C10_zero_remaining_zero_payment (s : PosState) (oid : ℕ) (amount : ℚ)
    (method : PaymentMethod) (ref : String) (o : Order)
    (ho : lookupEnt s.orders oid = some o) (hnc : o.status ≠ OrderStatus.completed)
    (hrem : paidTotal s oid = o.total_amount) (hamt : 0 < amount)
    (href : ¬((method = PaymentMethod.mobile_money ∨ method = PaymentMethod.orange_money) ∧
      ref = "")) :
    ∃ s', cashierProcessPayment s oid amount method ref true = Except.ok s' ∧
      s'.payments = s.payments ++ [(s.nextPaymentId, mkPayment oid 0 method ref)] ∧
      (mkPayment oid 0 method ref).amount = 0 ∧
      ∃ o', lookupEnt s'.orders oid = some o' ∧
        o'.status = OrderStatus.completed ∧ o'.completed_at = some s.now := by
  have h0 : o.total_amount - paidTotal s oid = 0 := by rw [hrem]; ring
  have hlt : o.total_amount - paidTotal s oid < amount := by rw [h0]; exact hamt
  have hok := cashierProcessPayment_ok s oid amount method ref o ho hnc hamt href
  rw [if_pos hlt, h0] at hok
  obtain ⟨hpay, hpaid, hord, htab⟩ := recordPayment_spec s oid 0 method ref o ho
  have hcond : o.total_amount ≤ paidTotal s oid + 0 := by rw [hrem]; linarith
  rw [if_pos hcond] at hord
  exact ⟨_, hok, hpay, rfl, _, hord, rfl, rfl⟩

/-- C3: an order's status becomes `completed` exactly when a processed
payment brings the sum of its payments up to (or beyond) `total_amount`; the
completion timestamp is stamped at that moment, and the order's table is
freed exactly then.  The first conjunct is the postcondition of any
successful payment (the status is `completed` afterwards iff the accumulated
payments reach the total, with timestamp and table freeing tied to it); the
second states that no other modelled operation ever completes an order or
frees a table. -/
theorem C3_completed_exactly_on_full_payment :
    (∀ (s : PosState) (oid : ℕ) (amount : ℚ) (method : PaymentMethod) (ref : String)
      (auditOk : Bool) (s' : PosState) (o : Order),
      cashierProcessPayment s oid amount method ref auditOk = Except.ok s' →
      lookupEnt s.orders oid = some o →
      ∃ o', lookupEnt s'.orders oid = some o' ∧
        (o'.status = OrderStatus.completed ↔ o'.total_amount ≤ paidTotal s' oid) ∧
        (o'.status = OrderStatus.completed → o'.completed_at = some s.now) ∧
        ∀ tid t, o.table = some tid → lookupEnt s.tables tid = some t →
          ∃ t', lookupEnt s'.tables tid = some t' ∧
            (t'.is_occupied = false ↔
              (o'.status = OrderStatus.completed ∨ t.is_occupied = false))) ∧
    (∀ (s : PosState) (op : NonPaymentOp),
      NoNewCompletion s (applyNonPaymentOp s op) ∧
      NoNewFreeTable s (applyNonPaymentOp s op)) := by
  constructor
  · intro s oid amount method ref auditOk s' o h ho
    unfold cashierProcessPayment at h
    split at h
    next heq => rw [ho] at heq; exact absurd heq (by simp)
    next o₂ heq =>
      rw [ho] at heq
      obtain rfl := Option.some.inj heq
      split at h
      · exact absurd h (by simp)
      next hnc =>
        split at h
        · exact absurd h (by simp)
        · split at h
          · exact absurd h (by simp)
          · dsimp only at h
            split at h
            · obtain rfl := Except.ok.inj h
              obtain ⟨hpay, hpaid, hord, htab⟩ :=
                recordPayment_spec s oid
                  (if o.total_amount - paidTotal s oid < amount then
                    o.total_amount - paidTotal s oid else amount) method ref o ho
              by_cases hc : o.total_amount ≤ paidTotal s oid +
                  (if o.total_amount - paidTotal s oid < amount then
                    o.total_amount - paidTotal s oid else amount)
              · rw [if_pos hc] at hord
                refine ⟨_, hord, ?_, fun _ => rfl, ?_⟩
                · refine iff_of_true rfl ?_
                  show o.total_amount ≤ paidTotal _ oid
                  have hpaid' : paidTotal { recordPayment s oid
                      (if o.total_amount - paidTotal s oid < amount then
                        o.total_amount - paidTotal s oid else amount) method ref with
                      auditLogs := (recordPayment s oid
                        (if o.total_amount - paidTotal s oid < amount then
                          o.total_amount - paidTotal s oid else amount)
                        method ref).auditLogs + 1 } oid =
                      paidTotal s oid +
                        (if o.total_amount - paidTotal s oid < amount then
                          o.total_amount - paidTotal s oid else amount) := hpaid
                  rw [hpaid']
                  exact hc
                · intro tid t htab0 ht0
                  have hres := htab tid t htab0 ht0
                  rw [if_pos hc] at hres
                  exact ⟨_, hres, iff_of_true rfl (Or.inl rfl)⟩
              · rw [if_neg hc] at hord
                refine ⟨o, hord, ?_, fun hcc => absurd hcc hnc, ?_⟩
                · refine iff_of_false hnc ?_
                  have hpaid' : paidTotal { recordPayment s oid
                      (if o.total_amount - paidTotal s oid < amount then
                        o.total_amount - paidTotal s oid else amount) method ref with
                      auditLogs := (recordPayment s oid
                        (if o.total_amount - paidTotal s oid < amount then
                          o.total_amount - paidTotal s oid else amount)
                        method ref).auditLogs + 1 } oid =
                      paidTotal s oid +
                        (if o.total_amount - paidTotal s oid < amount then
                          o.total_amount - paidTotal s oid else amount) := hpaid
                  rw [hpaid']
                  exact hc
                · intro tid t htab0 ht0
                  have hres := htab tid t htab0 ht0
                  rw [if_neg hc] at hres
                  refine ⟨t, hres, ?_⟩
                  constructor
                  · exact fun hf => Or.inr hf
                  · intro hor
                    rcases hor with hcc | hf
                    · exact absurd hcc hnc
                    · exact hf
            · exact absurd h (by simp)
  · exact applyNonPaymentOp_noNew

/-- C9 as amended: audit-write failures are swallowed for the login flow
(its `AuditLog.objects.create` is wrapped in try/except and login still
succeeds with the state untouched), but the payment-processing audit write
in the `audit_payment_creation` signal is not wrapped, so its failure always
aborts the payment operation — the caller never receives success. -/
theorem C9_audit_swallowed_only_for_login :
    (∀ s : PosState, loginAuditStep s false = (s, true)) ∧
    (∀ (s : PosState) (oid : ℕ) (amount : ℚ) (method : PaymentMethod) (ref : String)
      (s' : PosState), cashierProcessPayment s oid amount method ref false ≠ Except.ok s') := by
  constructor
  · intro s
    rfl
  · intro s oid amount method ref s' h
    unfold cashierProcessPayment at h
    split at h
    · exact absurd h (by simp)
    · split at h
      · exact absurd h (by simp)
      · split at h
        · exact absurd h (by simp)
        · split at h
          · exact absurd h (by simp)
          · dsimp only at h
            split at h
            next hfoo => exact Bool.noConfusion hfoo
            next => exact absurd h (by simp)

theorem lookupEnt_delEnt_self {α : Type} (l : List (ℕ × α)) (k : ℕ) :
    lookupEnt (delEnt l k) k = none := by
  induction l with
  | nil => rfl
  | cons hd tl ih =>
      obtain ⟨k₀, v₀⟩ := hd
      by_cases hk : k₀ = k
      · unfold delEnt at ih ⊢
        rw [List.filter_cons_of_neg (by simpa using hk)]
        exact ih
      · unfold delEnt at ih ⊢
        rw [List.filter_cons_of_pos (by simpa using hk), lookupEnt_cons, if_neg hk]
        exact ih

theorem recomputeTotalsViewDelete_items (s : PosState) (oid : ℕ) :
    (recomputeTotalsViewDelete s oid).items = s.items := by
  unfold recomputeTotalsViewDelete
  split
  · rfl
  · split <;> rfl

theorem recomputeTotalsViewDelete_movements (s : PosState) (oid : ℕ) :
    (recomputeTotalsViewDelete s oid).movements = s.movements := by
  unfold recomputeTotalsViewDelete
  split
  · rfl
  · split <;> rfl

theorem recomputeTotalsViewDelete_products (s : PosState) (oid : ℕ) :
    (recomputeTotalsViewDelete s oid).products = s.products := by
  unfold recomputeTotalsViewDelete
  split
  · rfl
  · split <;> rfl

theorem returnStockDirect_movements (s : PosState) (it : OrderItem) :
    (returnStockDirect s it).movements = s.movements := by
  unfold returnStockDirect
  split <;> rfl

theorem returnStockDirect_items (s : PosState) (it : OrderItem) :
    (returnStockDirect s it).items = s.items := by
  unfold returnStockDirect
  split <;> rfl

theorem returnStockDirect_products_lookup {s : PosState} {it : OrderItem} {p : Product}
    (hp : lookupEnt s.products it.product = some p) :
    lookupEnt (returnStockDirect s it).products it.product =
      some { p with stock_quantity := p.stock_quantity + it.quantity } := by
  unfold returnStockDirect
  split
  next heq => rw [hp] at heq; exact absurd heq (by simp)
  next p₂ heq =>
    rw [hp] at heq
    obtain rfl := Option.some.inj heq
    exact lookupEnt_setEnt_self _ _ _ _ hp

/-- The order row written by the delete-branch recomputation satisfies the
view's totals formula (with its hard-coded zero tax rate). -/
theorem recomputeTotalsViewDelete_entry {s : PosState} {oid : ℕ} {o' : Order}
    (h : lookupEnt (recomputeTotalsViewDelete s oid).orders oid = some o') :
    o'.subtotal = subSum (itemsOf s.items oid) ∧
    o'.tax_amount = o'.subtotal * 0 ∧
    o'.total_amount = o'.subtotal + o'.tax_amount := by
  unfold recomputeTotalsViewDelete at h
  split at h
  next hnone => exact absurd (hnone.symm.trans h) (by simp)
  next o ho =>
    split at h
    next hempty =>
      have hself := lookupEnt_setEnt_self s.orders oid
        { o with subtotal := (0 : ℚ), tax_amount := (0 : ℚ), total_amount := (0 : ℚ) } o ho
      obtain rfl := Option.some.inj (hself.symm.trans h)
      have hE : itemsOf s.items oid = [] := by simpa using hempty
      refine ⟨?_, by norm_num, by norm_num⟩
      show (0 : ℚ) = subSum (itemsOf s.items oid)
      rw [hE]
      rfl
    next hne =>
      have hself := lookupEnt_setEnt_self s.orders oid
        { o with subtotal := subSum (itemsOf s.items oid),
                 tax_amount := subSum (itemsOf s.items oid) * 0,
                 total_amount := subSum (itemsOf s.items oid) +
                   subSum (itemsOf s.items oid) * 0 } o ho
      obtain rfl := Option.some.inj (hself.symm.trans h)
      exact ⟨rfl, rfl, rfl⟩

/-- C5 as amended: removing an unconfirmed item from an open order succeeds,
returns the quantity to the product's stock by a direct
`stock_quantity += quantity` update WITHOUT creating any StockMovement
ledger record, deletes the item, and recomputes the order totals; removing a
confirmed item fails (the view reports "Cannot delete confirmed items" and
changes nothing, an error carrying no state). -/
theorem C5_remove_returns_stock_without_ledger (s : PosState) (oid iid : ℕ)
    (it : OrderItem) (o : Order) (ho : lookupEnt s.orders oid = some o)
    (hst : ¬(o.status ≠ OrderStatus.pending ∧ o.status ≠ OrderStatus.preparing))
    (hit : lookupEnt s.items iid = some it) (hord : it.order = oid) :
    (it.is_confirmed = true →
      waiterRemoveItem s oid iid = Except.error PosError.cannotDeleteConfirmed) ∧
    (it.is_confirmed = false → ∃ s', waiterRemoveItem s oid iid = Except.ok s' ∧
      s'.movements = s.movements ∧
      (∀ p, lookupEnt s.products it.product = some p →
        lookupEnt s'.products it.product =
          some { p with stock_quantity := p.stock_quantity + it.quantity }) ∧
      lookupEnt s'.items iid = none ∧
      ∀ o', lookupEnt s'.orders oid = some o' →
        o'.subtotal = subSum (itemsOf s'.items oid) ∧
        o'.tax_amount = o'.subtotal * 0 ∧
        o'.total_amount = o'.subtotal + o'.tax_amount) := by
  have hnot : ¬(it.order ≠ oid) := fun hne => hne hord
  constructor
  · intro hconf
    unfold waiterRemoveItem
    split
    next heq => rw [ho] at heq; exact absurd heq (by simp)
    next o₂ heq =>
      rw [ho] at heq
      obtain rfl := Option.some.inj heq
      rw [if_neg hst]
      split
      next heq2 => rw [hit] at heq2; exact absurd heq2 (by simp)
      next it₂ heq2 =>
        rw [hit] at heq2
        obtain rfl := Option.some.inj heq2
        rw [if_neg hnot, if_pos hconf]
  · intro hconf
    have hconf' : ¬(it.is_confirmed = true) := by rw [hconf]; exact Bool.noConfusion
    have hval : waiterRemoveItem s oid iid = Except.ok (recomputeTotalsViewDelete
        { returnStockDirect s it with
          items := delEnt (returnStockDirect s it).items iid } oid) := by
      unfold waiterRemoveItem
      split
      next heq => rw [ho] at heq; exact absurd heq (by simp)
      next o₂ heq =>
        rw [ho] at heq
        obtain rfl := Option.some.inj heq
        rw [if_neg hst]
        split
        next heq2 => rw [hit] at heq2; exact absurd heq2 (by simp)
        next it₂ heq2 =>
          rw [hit] at heq2
          obtain rfl := Option.some.inj heq2
          rw [if_neg hnot, if_neg hconf']
    refine ⟨_, hval, ?_, ?_, ?_, ?_⟩
    · rw [recomputeTotalsViewDelete_movements]
      show (returnStockDirect s it).movements = s.movements
      exact returnStockDirect_movements s it
    · intro p hp
      rw [recomputeTotalsViewDelete_products]
      show lookupEnt (returnStockDirect s it).products it.product = _
      exact returnStockDirect_products_lookup hp
    · rw [recomputeTotalsViewDelete_items]
      show lookupEnt (delEnt (returnStockDirect s it).items iid) iid = none
      exact lookupEnt_delEnt_self _ _
    · intro o' ho'
      rw [recomputeTotalsViewDelete_items]
      exact recomputeTotalsViewDelete_entry ho'

/-- C6: Payment rows are immutable at the data layer: for every stored
payment, a `save` of a modified instance (whatever fields were changed) and a
`delete` both fail with the immutability `ValueError` raised before anything
is written, so the stored record is unchanged (an error result carries no
state change). -/
theorem C6_payment_rows_immutable (s : PosState) (payId : ℕ)
    (stored updated : Payment) (h : lookupEnt s.payments payId = some stored) :
    paymentSaveUpdate s payId updated = Except.error PosError.immutabilityViolation ∧
    paymentDelete s payId = Except.error PosError.immutabilityViolation := by
  constructor
  · unfold paymentSaveUpdate
    split
    next heq => rw [h] at heq; exact absurd heq (by simp)
    next => rfl
  · unfold paymentDelete
    split
    next heq => rw [h] at heq; exact absurd heq (by simp)
    next => rfl

/-! ### Concrete states for witnesses and counterexamples -/

/-- An open `preparing` order totalling 2000. -/
def prepOrder : Order :=
  { table := some 1
    status := OrderStatus.preparing
    subtotal := 2000
    tax_amount := 0
    total_amount := 2000
    completed_at := none }

/-- A stored unconfirmed item: two units at locked price 1000. -/
def baseItem : OrderItem :=
  { order := 1
    product := 1
    quantity := 2
    unit_price := 1000
    subtotal := 2000
    special_instructions := ""
    is_confirmed := false
    confirmed_at := none }

/-- Baseline plus the open order and its unconfirmed item. -/
def itemState : PosState :=
  { baseState with orders := [(1, prepOrder)], items := [(1, baseItem)], nextItemId := 2 }

/-- The same item after kitchen confirmation. -/
def confirmedItem : OrderItem := { baseItem with is_confirmed := true, confirmed_at := some 0 }

/-- Baseline plus the open order holding the confirmed item. -/
def confState : PosState := { itemState with items := [(1, confirmedItem)] }

/-- A stored cash payment of 2000 on the open order. -/
def basePayment : Payment :=
  { order := 1
    amount := 2000
    payment_method := PaymentMethod.cash
    transaction_reference := ""
    receipt_printed := false
    receipt_printed_at := none }

/-- Baseline with the open order and its stored payment. -/
def payState : PosState :=
  { itemState with payments := [(1, basePayment)], nextPaymentId := 2 }

/-- The movement row `inventory_adjust` records for a manual adjustment to
absolute target 4 from stock 50. -/
def adjMovement : StockMovement :=
  { product := 1
    movement_type := MovementType.adjustment
    quantity := -4
    previous_quantity := 50
    new_quantity := 4 }

/-- Result of removing the unconfirmed item from `itemState`. -/
def rmState : PosState :=
  { itemState with
    products := [(1, { baseProduct with stock_quantity := 52 })]
    items := []
    orders := [(1, { prepOrder with subtotal := 0, tax_amount := 0, total_amount := 0 })] }

/-- Result of fully paying the open order of `itemState` with 2000 cash. -/
def paidState : PosState :=
  { itemState with
    tables := [(1, { is_occupied := false, is_active := true })]
    orders := [(1, { prepOrder with status := OrderStatus.completed, completed_at := some 0 })]
    payments := [(1, basePayment)]
    auditLogs := 1
    nextPaymentId := 2 }

/-- The structured receipt `api_print_receipt` builds for `payState`. -/
def payReceipt : ReceiptData :=
  { receipt_number := 1
    order_number := 1
    subtotal := 2000
    tax := 0
    total := 2000
    amount_paid := 2000
    items := [(2, 1000, 2000)] }

/-- The item row written when the confirmed item is re-saved with quantity 3
and the confirmation flag cleared. -/
def bypassItem : OrderItem :=
  { confirmedItem with quantity := 3, is_confirmed := false, subtotal := 3000 }

/-- The state after the confirmed-item lock is bypassed. -/
def bypassState : PosState :=
  { confState with
    items := [(1, bypassItem)]
    orders := [(1, { prepOrder with subtotal := 3000, total_amount := 3000 })] }

/-! ### Remaining claim theorems, counterexamples and witnesses -/

/-- C4: evaluation at the failing input.  A manual `adjustment` of product 1
(stock 50) to the absolute target 4 succeeds and appends a StockMovement
recording `quantity = -4`, `previous_quantity = 50`, `new_quantity = 4` —
violating the ledger invariant `new = previous + quantity` (4 ≠ 46): the
view stores the negated form value as the delta instead of the actual
difference `new - previous`. -/
theorem C4_adjustment_breaks_ledger_invariant :
    inventoryAdjust baseState 1 4 MovementType.adjustment =
      Except.ok { baseState with
        products := [(1, { baseProduct with stock_quantity := 4 })]
        movements := [adjMovement]
        auditLogs := 1 } ∧
    adjMovement.quantity = -4 ∧ adjMovement.previous_quantity = 50 ∧
    adjMovement.new_quantity = 4 ∧
    adjMovement.new_quantity ≠ adjMovement.previous_quantity + adjMovement.quantity :=
  ⟨by decide, rfl, rfl, rfl, by decide⟩

/-- C5 counterexample: removing the unconfirmed item succeeds and the
movements ledger stays empty — no StockMovement is created for the return,
contrary to the claim. -/
theorem C5_counterexample_no_movement_created :
    waiterRemoveItem itemState 1 1 = Except.ok rmState ∧ rmState.movements = [] :=
  ⟨by decide, rfl⟩

/-- Witness for the amended C5 theorem at the concrete state. -/
theorem C5_remove_witness :
    (baseItem.is_confirmed = true →
      waiterRemoveItem itemState 1 1 = Except.error PosError.cannotDeleteConfirmed) ∧
    (baseItem.is_confirmed = false → ∃ s', waiterRemoveItem itemState 1 1 = Except.ok s' ∧
      s'.movements = itemState.movements ∧
      (∀ p, lookupEnt itemState.products baseItem.product = some p →
        lookupEnt s'.products baseItem.product =
          some { p with stock_quantity := p.stock_quantity + baseItem.quantity }) ∧
      lookupEnt s'.items 1 = none ∧
      ∀ o', lookupEnt s'.orders 1 = some o' →
        o'.subtotal = subSum (itemsOf s'.items 1) ∧
        o'.tax_amount = o'.subtotal * 0 ∧
        o'.total_amount = o'.subtotal + o'.tax_amount) :=
  C5_remove_returns_stock_without_ledger itemState 1 1 baseItem prepOrder
    (by decide) (by decide) (by decide) (by decide)

/-- Witness for C6 at the concrete stored payment. -/
theorem C6_payment_immutable_witness :
    paymentSaveUpdate payState 1 { basePayment with amount := 1 } =
      Except.error PosError.immutabilityViolation ∧
    paymentDelete payState 1 = Except.error PosError.immutabilityViolation :=
  C6_payment_rows_immutable payState 1 basePayment { basePayment with amount := 1 }
    (by decide)

/-- C7: evaluation at the failing input.  With the printer reporting
success, `api_print_receipt` attempts `payment.save(...)`, which
`Payment.save` rejects for any persisted row; the view's generic handler
turns the `ValueError` into the error response, the receipt data is NOT
returned and `receipt_printed` stays false.  Only the printer-failure path
returns the structured receipt (with `printer_success = False`).  The code
can therefore never set the flag. -/
theorem C7_print_success_cannot_mark_flag :
    apiPrintReceipt payState 1 true = Except.error PosError.immutabilityViolation ∧
    apiPrintReceipt payState 1 false = Except.ok (payState, payReceipt, false) ∧
    basePayment.receipt_printed = false :=
  ⟨by decide, by decide, rfl⟩

/-- C8: evaluation at the failing input.  Re-saving the confirmed item with
`quantity` changed from 2 to 3 AND `is_confirmed` cleared slips past the
immutability guard (which inspects the incoming instance's flag, not the
stored row's) and persists the new quantity; the same quantity change with
the flag kept raises the immutability error, showing the guard is bypassed
exactly by clearing the flag. -/
theorem C8_confirmed_lock_bypassed_by_clearing_flag :
    orderItemSave confState 1 { confirmedItem with quantity := 3, is_confirmed := false } =
      Except.ok bypassState ∧
    lookupEnt bypassState.items 1 = some bypassItem ∧
    bypassItem.quantity = 3 ∧ confirmedItem.quantity = 2 ∧
    confirmedItem.is_confirmed = true ∧
    orderItemSave confState 1 { confirmedItem with quantity := 3 } =
      Except.error PosError.immutabilityViolation :=
  ⟨by decide, by decide, rfl, rfl, rfl, by decide⟩

/-- C9 counterexample: a fully valid cash payment request on the open order
is aborted when the audit-log write fails — the caller receives an error and
no payment is recorded, contrary to the claim that an audit failure never
aborts the business operation. -/
theorem C9_counterexample_audit_failure_aborts_payment :
    cashierProcessPayment itemState 1 2000 PaymentMethod.cash "" false =
      Except.error PosError.auditFailure := by decide

/-- Witness for the amended C9 theorem. -/
theorem C9_audit_witness :
    loginAuditStep baseState false = (baseState, true) ∧
    cashierProcessPayment itemState 1 2000 PaymentMethod.cash "" false ≠
      Except.ok itemState :=
  ⟨C9_audit_swallowed_only_for_login.1 baseState,
   C9_audit_swallowed_only_for_login.2 itemState 1 2000 PaymentMethod.cash "" itemState⟩

/-- Witness for C2: a 5000 request against a 2000 order with no prior
payments is capped to the 2000 remaining balance. -/
theorem C2_cap_witness :
    ∃ s', cashierProcessPayment itemState 1 5000 PaymentMethod.cash "" true =
        Except.ok s' ∧
      s'.payments = itemState.payments ++ [(itemState.nextPaymentId,
        mkPayment 1 (if prepOrder.total_amount - paidTotal itemState 1 < 5000 then
          prepOrder.total_amount - paidTotal itemState 1 else 5000) PaymentMethod.cash "")] ∧
      (prepOrder.total_amount - paidTotal itemState 1 < 5000 →
        (mkPayment 1 (if prepOrder.total_amount - paidTotal itemState 1 < 5000 then
          prepOrder.total_amount - paidTotal itemState 1 else 5000)
          PaymentMethod.cash "").amount =
        prepOrder.total_amount - paidTotal itemState 1) ∧
      ∀ o', lookupEnt s'.orders 1 = some o' →
        o'.total_amount = prepOrder.total_amount ∧ paidTotal s' 1 ≤ o'.total_amount :=
  C2_payment_capped_never_exceeds_total itemState 1 5000 PaymentMethod.cash "" prepOrder
    (by decide) (by decide) (by decide) (by decide)

/-- Witness for C3 at a concrete fully-paying payment. -/
theorem C3_completion_witness :
    ∃ o', lookupEnt paidState.orders 1 = some o' ∧
      (o'.status = OrderStatus.completed ↔ o'.total_amount ≤ paidTotal paidState 1) ∧
      (o'.status = OrderStatus.completed → o'.completed_at = some itemState.now) ∧
      ∀ tid t, prepOrder.table = some tid → lookupEnt itemState.tables tid = some t →
        ∃ t', lookupEnt paidState.tables tid = some t' ∧
          (t'.is_occupied = false ↔
            (o'.status = OrderStatus.completed ∨ t.is_occupied = false)) :=
  C3_completed_exactly_on_full_payment.1 itemState 1 2000 PaymentMethod.cash "" true
    paidState prepOrder (by decide) (by decide)

/-- Witness for C10: a 500 request against the zero-total pending order is
capped to zero and completes the order. -/
theorem C10_zero_payment_witness :
    ∃ s', cashierProcessPayment baseState 1 500 PaymentMethod.cash "" true =
        Except.ok s' ∧
      s'.payments = baseState.payments ++
        [(baseState.nextPaymentId, mkPayment 1 0 PaymentMethod.cash "")] ∧
      (mkPayment 1 0 PaymentMethod.cash "").amount = 0 ∧
      ∃ o', lookupEnt s'.orders 1 = some o' ∧
        o'.status = OrderStatus.completed ∧ o'.completed_at = some baseState.now :=
  C10_zero_remaining_zero_payment baseState 1 500 PaymentMethod.cash "" baseOrder
    (by decide) (by decide) (by decide) (by decide) (by decide)

/-- Witness for the totals theorem C1 at a concrete run: two additions then a
removal on the baseline order settle at subtotal 3000, tax 0, total 3000. -/
theorem C1_totals_witness :
    StateInv baseState ∧
    ((3000 : ℚ) = qpSum (itemsOf (applyWaiterOps baseState
        [WaiterOp.add 1 1 2 "", WaiterOp.add 1 1 3 "", WaiterOp.remove 1 1]).items 1) ∧
      (0 : ℚ) = (3000 : ℚ) * TAX_RATE ∧
      (3000 : ℚ) = (3000 : ℚ) + (0 : ℚ) ∧
      (3000 : ℚ) = qpSum (itemsOf (applyWaiterOps baseState
        [WaiterOp.add 1 1 2 "", WaiterOp.add 1 1 3 "", WaiterOp.remove 1 1]).items 1) *
        (1 + TAX_RATE)) :=
  ⟨by decide,
   C1_totals_after_any_sequence baseState
     [WaiterOp.add 1 1 2 "", WaiterOp.add 1 1 3 "", WaiterOp.remove 1 1]
     (by decide) 1
     { table := some 1, status := OrderStatus.preparing, subtotal := 3000,
       tax_amount := 0, total_amount := 3000, completed_at := none }
     (by decide)⟩

end PoshLounge
